import Mathlib

/-!
# The ESP32 extension of scratch-vm: command encoder and peripheral session

A shallow embedding of `src/extensions/scratch3_esp32/index.js` (class `Esp32`).

* Bytes are natural numbers; a `Uint8Array` is a list of them and every store
  reduces the stored value modulo 256.
* JavaScript exceptions are the `error` results of `Except`.
* The object's fields, the window timers and the transport's pending writes
  are one explicit state `World`, and every entry point is a function on it.
-/

namespace Esp32

/-! ## JavaScript values -/

/-- Exceptions a call of the extension can raise. -/
inductive JsError where
  /-- Member access on `null`. -/
  | typeError
  /-- Text that is not base64 handed to the decoder. -/
  | invalidCharacter
  deriving DecidableEq

/-- The loop `for (let i = 0; i < n; i++) body(i)` run on a state. -/
def forRange {σ : Type} (n : Nat) (body : σ → Nat → σ) (init : σ) : σ :=
  (List.range n).foldl body init

/-- The constructor `new Uint8Array(n)`: n zero bytes. -/
def newUint8Array (n : Nat) : List Nat :=
  List.replicate n 0

/-- The store `a[i] = v` on a Uint8Array: the value is reduced modulo 256 and a
store outside the array is ignored. -/
def u8store (a : List Nat) (i v : Nat) : List Nat :=
  a.set i (v % 256)

/-- The read `a[i]` of a byte that is then stored or masked; outside the array
the read yields `undefined`, which both uses coerce to 0. -/
def u8load (a : List Nat) (i : Nat) : Nat :=
  a.getD i 0

/-- The UTF-16 code units of a text: what `text.length` counts and what
`text.charCodeAt(i)` reads. -/
def utf16Units (text : String) : List Nat :=
  text.data.flatMap fun c =>
    if c.toNat < 0x10000 then [c.toNat]
    else [0xD800 + (c.toNat - 0x10000) / 0x400, 0xDC00 + (c.toNat - 0x10000) % 0x400]

/-! ## Base64 codec (`util/base64-util`) -/

/-- Modelled from the spec: the 64 digits of the base64 codec of
`util/base64-util`, which the extension imports and this file does not contain. -/
def base64Digits : List Char :=
  "ABCDEFGHIJKLMNOPQRSTUVWXYZabcdefghijklmnopqrstuvwxyz0123456789+/".data

/-- Modelled from the spec: the digit of a 6-bit value. -/
def base64Digit (n : Nat) : Char :=
  base64Digits.getD n 'A'

/-- Modelled from the spec: the 6-bit value of a digit, if it is one. -/
def base64Value (c : Char) : Option Nat :=
  if base64Digits.indexOf c < 64 then some (base64Digits.indexOf c) else none

/-- Modelled from the spec: base64 text of a byte sequence, three bytes to four
digits, padded with `=` (the byte-array to base64-text direction of the codec
of `util/base64-util`). -/
def encodeBytes : List Nat → List Char
  | [] => []
  | [a] => [base64Digit (a / 4), base64Digit (a % 4 * 16), '=', '=']
  | [a, b] =>
    [base64Digit (a / 4), base64Digit (a % 4 * 16 + b / 16), base64Digit (b % 16 * 4), '=']
  | a :: b :: c :: rest =>
    base64Digit (a / 4) :: base64Digit (a % 4 * 16 + b / 16)
      :: base64Digit (b % 16 * 4 + c / 64) :: base64Digit (c % 64) :: encodeBytes rest

/-- Modelled from the spec: the bytes of a base64 text, four digits to three
bytes, padding accepted in the last group only; `none` on text that is not
well-formed (the base64-text to byte-array direction of the codec of
`util/base64-util`). -/
def decodeChars : List Char → Option (List Nat)
  | [] => some []
  | c1 :: c2 :: c3 :: c4 :: rest =>
    match base64Value c1, base64Value c2 with
    | some s1, some s2 =>
      if rest = [] ∧ c3 = '=' ∧ c4 = '=' then some [s1 * 4 + s2 / 16]
      else
        match base64Value c3 with
        | none => none
        | some s3 =>
          if rest = [] ∧ c4 = '=' then some [s1 * 4 + s2 / 16, s2 % 16 * 16 + s3 / 4]
          else
            match base64Value c4, decodeChars rest with
            | some s4, some tail =>
              some ((s1 * 4 + s2 / 16) :: (s2 % 16 * 16 + s3 / 4) :: (s3 % 4 * 64 + s4) :: tail)
            | _, _ => none
    | _, _ => none
  | _ => none

/-- Modelled from the spec: `Base64Util.uint8ArrayToBase64` of
`util/base64-util`. -/
def uint8ArrayToBase64 (array : List Nat) : String :=
  String.mk (encodeBytes array)

/-- Modelled from the spec: `Base64Util.base64ToUint8Array` of
`util/base64-util`; malformed text raises. -/
def base64ToUint8Array (base64 : String) : Except JsError (List Nat) :=
  match decodeChars base64.data with
  | some bytes => .ok bytes
  | none => .error .invalidCharacter

/-! ## Protocol constants -/

/-- The constant `BLECommand.CMD_TASK`. -/
def CMD_TASK : Nat := 0x81

/-- The constant `PramFunc.FUNC_DISPLAY_TEXT`. -/
def FUNC_DISPLAY_TEXT : Nat := 0xC1

/-- The constant `PramFunc.FUNC_LOOP`. -/
def FUNC_LOOP : Nat := 0xC2

/-- The constant `PramFunc.FUNC_WAIT`. -/
def FUNC_WAIT : Nat := 0xC3

/-- The constant `BLETimeout`, in milliseconds. -/
def BLETimeout : Nat := 2000

/-- The constant `BLEDataStoppedError`. -/
def BLEDataStoppedError : String := "esp32 extension stopped receiving data"

/-- The constant `BLEUUID.service`. -/
def BLEUUID_service : Nat := 0xf005

/-- The constant `BLEUUID.rxChar`. -/
def BLEUUID_rxChar : String := "5261da01-fa7e-42ab-850b-7c80220097cc"

/-- The constant `BLEUUID.txChar`. -/
def BLEUUID_txChar : String := "5261da02-fa7e-42ab-850b-7c80220097cc"

/-! ## Command encoder -/

/-- The method `Esp32._funcPrefix(funcCode, data, func)`; `func` is `none` for
`null`. -/
def _funcPrefix (funcCode : Nat) (data : List Nat) (func : Option String) :
    Except JsError String :=
  match func with
  | some func =>
    match base64ToUint8Array func with
    | .error e => .error e
    | .ok suffix =>
      let output := newUint8Array (data.length + 1 + suffix.length)
      let output := u8store output 0 funcCode
      let output := forRange data.length (fun out i => u8store out (i + 1) (u8load data i)) output
      let i := data.length
      let state := forRange suffix.length
        (fun st j => (u8store st.1 (st.2 + 1) (u8load suffix j), st.2 + 1)) (output, i)
      .ok (uint8ArrayToBase64 state.1)
  | none =>
    let output := newUint8Array (data.length + 1)
    let output := u8store output 0 funcCode
    let output := forRange data.length (fun out i => u8store out (i + 1) (u8load data i)) output
    .ok (uint8ArrayToBase64 output)

/-- The method `Esp32.displayText(text)`. -/
def displayText (text : String) : Except JsError String :=
  let units := utf16Units text
  let output := newUint8Array units.length
  let output := forRange units.length (fun out i => u8store out i (u8load units i)) output
  _funcPrefix FUNC_DISPLAY_TEXT output none

/-- The method `Esp32.loop(loop, func)`. -/
def loop (loop : Nat) (func : Option String) : Except JsError String :=
  let output := newUint8Array 1
  let output := u8store output 0 loop
  _funcPrefix FUNC_LOOP output func

/-- The method `Esp32.wait(sec, func)`. -/
def wait (sec : Nat) (func : Option String) : Except JsError String :=
  let output := newUint8Array 1
  let output := u8store output 0 sec
  _funcPrefix FUNC_WAIT output func

/-- The buffer `output` that `Esp32.send(command, message)` fills before
encoding it (the three statements after the busy timer is armed). -/
def sendOutput (command : Nat) (message : List Nat) : List Nat :=
  let output := newUint8Array (message.length + 1)
  let output := u8store output 0 command
  forRange message.length (fun out i => u8store out (i + 1) (u8load message i)) output

/-! ## Peripheral session: state -/

/-- The store `a[k] = v` on an ordinary array, whose slots are `none` where the
array has a hole: inside the array the slot is replaced, outside the array
grows to `k + 1` slots. -/
def arrayStore (a : List (Option Nat)) (k v : Nat) : List (Option Nat) :=
  if k < a.length then a.set k (some v)
  else a ++ List.replicate (k - a.length) none ++ [some v]

/-- The function a window timer runs when it expires: the arrow functions the
class hands to `window.setTimeout`. -/
inductive TimerCallback where
  /-- The function `() => { this._busy = false; }` of `send`. -/
  | clearBusy
  /-- The function `() => this._ble.handleDisconnectError(BLEDataStoppedError)`
  of `_onConnect` and `_onMessage`. -/
  | dataStopped
  deriving DecidableEq

/-- An armed window timer. -/
structure Timer where
  /-- The id `window.setTimeout` returned. -/
  id : Nat
  /-- The function to run on expiry. -/
  callback : TimerCallback
  /-- The delay in milliseconds. -/
  delay : Nat
  deriving DecidableEq

/-- The arguments of one call `this._ble.write(...)`. -/
structure Write where
  /-- The service id. -/
  serviceId : Nat
  /-- The characteristic id. -/
  characteristicId : String
  /-- The message text. -/
  message : String
  /-- The encoding of the message text. -/
  encoding : String
  /-- Whether a response is requested. -/
  withResponse : Bool
  deriving DecidableEq

/-- A write handed to the transport whose promise is not yet resolved. -/
structure PendingWrite where
  /-- The number of writes issued before this one; identifies the promise. -/
  seq : Nat
  /-- The arguments of the call. -/
  write : Write
  /-- History variable, read by no operation: the id of the busy timer armed
  by the `send` that issued the write. -/
  busyTimer : Nat
  deriving DecidableEq

/-- Modelled from the spec: the part of the host BLE transport `io/ble` the
extension can observe: whether the link is up (`isConnected()`) and whether
`read` has subscribed `_onMessage` to the inbound characteristic. -/
structure BLE where
  /-- The result of `isConnected()`. -/
  connected : Bool
  /-- Whether `read(..., true, this._onMessage)` has been called. -/
  notifying : Bool
  deriving DecidableEq

/-- The fields of an `Esp32` object together with the window timers and the
transport it acts on. -/
structure World where
  /-- The field `this._ble`; `none` is `null`. -/
  _ble : Option BLE
  /-- The field `this._sensors.GPIOPins`. -/
  GPIOPins : List (Option Nat)
  /-- The field `this._timeoutID`; `none` is `null`. -/
  _timeoutID : Option Nat
  /-- The field `this._busy`. -/
  _busy : Bool
  /-- The field `this._busyTimeoutID`; `none` is `null`. -/
  _busyTimeoutID : Option Nat
  /-- The armed timers of the window. -/
  timers : List Timer
  /-- The id the next `window.setTimeout` returns. -/
  nextTimerID : Nat
  /-- The writes whose promise is not yet resolved, oldest first. -/
  pending : List PendingWrite
  /-- Every write handed to the transport so far, oldest first. -/
  writes : List Write
  /-- The arguments of every call of `handleDisconnectError` so far. -/
  disconnectErrors : List String

/-- The state after `new Esp32(runtime, extensionId)` in a window that has
armed no timer yet (timer ids are positive). -/
def constructor : World where
  _ble := none
  GPIOPins := [some 0, some 0, some 0, some 0, some 0, some 0, some 0, some 0,
    some 0, some 0, some 0, some 0, some 0, some 0, some 0, some 0,
    some 0, some 0, some 0, some 0, some 0, some 0, some 0, some 0,
    some 0, some 0, some 0, some 0, some 0, some 0, some 0, some 0]
  _timeoutID := none
  _busy := false
  _busyTimeoutID := none
  timers := []
  nextTimerID := 1
  pending := []
  writes := []
  disconnectErrors := []

/-! ## Window timers and host transport -/

/-- The call `window.setTimeout(callback, delay)`: arms a timer under an id
never used before and returns the id. -/
def setTimeout (w : World) (callback : TimerCallback) (delay : Nat) : Nat × World :=
  (w.nextTimerID,
    { w with
      timers := w.timers ++ [{ id := w.nextTimerID, callback := callback, delay := delay }]
      nextTimerID := w.nextTimerID + 1 })

/-- The call `window.clearTimeout(id)`: disarms the timer of that id, if any. -/
def clearTimeout (w : World) (id : Option Nat) : World :=
  match id with
  | none => w
  | some id => { w with timers := w.timers.filter fun t => t.id != id }

/-- Whether `if (id)` takes its branch for a timer id field. -/
def truthy (id : Option Nat) : Bool :=
  match id with
  | none => false
  | some n => n != 0

/-- Modelled from the spec: `BLE.disconnect()` of `io/ble` tears the link down. -/
def bleDisconnect (ble : BLE) : BLE :=
  { ble with connected := false, notifying := false }

/-- Modelled from the spec: `BLE.write(...)` of `io/ble` takes the write and
returns a promise that is pending until the transport completes the write. -/
def bleWrite (w : World) (write : Write) (busyTimer : Nat) : World :=
  { w with
    writes := w.writes ++ [write]
    pending := w.pending ++ [{ seq := w.writes.length, write := write, busyTimer := busyTimer }] }

/-- Modelled from the spec: `BLE.handleDisconnectError(e)` of `io/ble`, the
stall-error hook: the error is reported to the host and the link is torn down.
The reset callback that `scan` hands the transport is the separate event
`Event.reset`, which the transport may raise at any time. -/
def handleDisconnectError (w : World) (ble : BLE) (e : String) : World :=
  { w with
    _ble := some (bleDisconnect ble)
    disconnectErrors := w.disconnectErrors ++ [e] }

/-! ## Peripheral session: operations -/

/-- The method `Esp32.scan()`. -/
def scan (w : World) : World :=
  let w :=
    match w._ble with
    | some ble => { w with _ble := some (bleDisconnect ble) }
    | none => w
  { w with _ble := some { connected := false, notifying := false } }

/-- The method `Esp32.reset()`. -/
def reset (w : World) : World :=
  if truthy w._timeoutID then
    let w := clearTimeout w w._timeoutID
    { w with _timeoutID := none }
  else w

/-- The method `Esp32.disconnect()`. -/
def disconnect (w : World) : World :=
  let w :=
    match w._ble with
    | some ble => { w with _ble := some (bleDisconnect ble) }
    | none => w
  reset w

/-- The method `Esp32.isConnected()`. -/
def isConnected (w : World) : Bool :=
  match w._ble with
  | some ble => ble.connected
  | none => false

/-- The method `Esp32.send(command, message)`. -/
def send (w : World) (command : Nat) (message : List Nat) : Except JsError World :=
  if !isConnected w then .ok w
  else if w._busy then .ok w
  else
    let w := { w with _busy := true }
    let armed := setTimeout w .clearBusy 5000
    let w := { armed.2 with _busyTimeoutID := some armed.1 }
    let output := sendOutput command message
    let data := uint8ArrayToBase64 output
    match w._ble with
    | none => .error .typeError
    | some _ =>
      .ok (bleWrite w
        { serviceId := BLEUUID_service, characteristicId := BLEUUID_txChar, message := data,
          encoding := "base64", withResponse := true } armed.1)

/-- The function `send` hands to `.then` of the write promise. -/
def writeResolved (w : World) : World :=
  let w := { w with _busy := false }
  clearTimeout w w._busyTimeoutID

/-- The method `Esp32.runTask(func)`. -/
def runTask (w : World) (func : String) : Except JsError World :=
  match base64ToUint8Array func with
  | .error e => .error e
  | .ok output => send w CMD_TASK output

/-- The method `Esp32._onConnect()`. -/
def _onConnect (w : World) : Except JsError World :=
  match w._ble with
  | none => .error .typeError
  | some ble =>
    let w := { w with _ble := some { ble with notifying := true } }
    let armed := setTimeout w .dataStopped BLETimeout
    .ok { armed.2 with _timeoutID := some armed.1 }

/-- The two nested loops of `Esp32._onMessage` on the pins. -/
def onMessagePins (data : List Nat) (pins : List (Option Nat)) : List (Option Nat) :=
  forRange data.length
    (fun pins i =>
      forRange 8 (fun pins j => arrayStore pins (i + j) (u8load data i &&& (1 <<< (8 - j)))) pins)
    pins

/-- The method `Esp32._onMessage(base64)`. -/
def _onMessage (w : World) (base64 : String) : Except JsError World :=
  match base64ToUint8Array base64 with
  | .error e => .error e
  | .ok data =>
    let w := { w with GPIOPins := onMessagePins data w.GPIOPins }
    let w := clearTimeout w w._timeoutID
    let armed := setTimeout w .dataStopped BLETimeout
    .ok { armed.2 with _timeoutID := some armed.1 }

/-- The body of a timer callback. A `TypeError` inside the stall callback
(no transport object) ends the callback with nothing changed. -/
def runCallback (w : World) : TimerCallback → World
  | .clearBusy => { w with _busy := false }
  | .dataStopped =>
    match w._ble with
    | some ble => handleDisconnectError w ble BLEDataStoppedError
    | none => w

/-! ## Peripheral session: step relation -/

/-- What can happen to a session. -/
inductive Event where
  /-- The runtime calls `scan()`. -/
  | scan
  /-- The transport reports the link established and calls `_onConnect`. -/
  | connectCallback
  /-- The transport delivers an inbound frame to `_onMessage`. -/
  | message (base64 : String)
  /-- A block calls `send(command, message)`. -/
  | send (command : Nat) (message : List Nat)
  /-- The transport completes the pending write of that sequence number. -/
  | writeDone (seq : Nat)
  /-- The armed timer of that id expires. -/
  | timerExpired (id : Nat)
  /-- The transport calls the reset callback `reset()`. -/
  | reset
  /-- The runtime calls `disconnect()`. -/
  | disconnect
  /-- The link goes down on the transport's side. -/
  | linkLost

/-- The state after a call: an exception leaves the state as it was (every
`throw` of the class comes before its first assignment). -/
def settle (w : World) (r : Except JsError World) : World :=
  match r with
  | .ok w' => w'
  | .error _ => w

/-- One step of the session. An event that cannot occur in the state (no
transport object, no such pending write, no such armed timer) changes nothing.
The host transport, which is not part of the class, marks the link up before
it calls the connect callback and marks it down when the link is lost. -/
def step (w : World) : Event → World
  | .scan => scan w
  | .connectCallback =>
    match w._ble with
    | none => w
    | some ble => settle w (_onConnect { w with _ble := some { ble with connected := true } })
  | .message base64 => settle w (_onMessage w base64)
  | .send command message => settle w (send w command message)
  | .writeDone seq =>
    if w.pending.any (fun p => p.seq == seq) then
      writeResolved { w with pending := w.pending.filter fun p => p.seq != seq }
    else w
  | .timerExpired id =>
    match w.timers.find? (fun t => t.id == id) with
    | none => w
    | some t => runCallback { w with timers := w.timers.filter fun t => t.id != id } t.callback
  | .reset => reset w
  | .disconnect => disconnect w
  | .linkLost =>
    match w._ble with
    | none => w
    | some ble => { w with _ble := some (bleDisconnect ble) }

/-- The state after a sequence of events. -/
def run (w : World) (events : List Event) : World :=
  events.foldl step w

/-- The armed timers that run the given callback. -/
def armedTimers (w : World) (callback : TimerCallback) : List Timer :=
  w.timers.filter fun t => t.callback = callback

/-- Whether a timer of that id is armed. -/
def isArmed (w : World) (id : Nat) : Bool :=
  w.timers.any fun t => t.id == id

/-! ## The description of the inbound decoding -/

/-- The assignments in the words of the description of `onDataReceived`: for
every input byte index `i` and, within it, every bit position `j` in `[0,8)`,
in increasing order, slot `i + j` receives `inputByte[i] & (1 << (8 - j))`. -/
def specAssignments (b : List Nat) : List (Nat × Nat) :=
  (List.range b.length).flatMap fun i =>
    (List.range 8).map fun j => (i + j, u8load b i &&& (1 <<< (8 - j)))

/-- A sample after a list of assignments `G[k] := v`, performed first to last. -/
def performAssignments (G : List (Option Nat)) (assignments : List (Nat × Nat)) :
    List (Option Nat) :=
  assignments.foldl (fun g a => arrayStore g a.1 a.2) G

/-- The closed form of slot `k` after a frame `b` of at least one byte:
`b[m] & (1 << (8 - (k - m)))` with `m = min(k, n - 1)`. -/
def closedSlot (b : List Nat) (k : Nat) : Nat :=
  u8load b (min k (b.length - 1)) &&& (1 <<< (8 - (k - min k (b.length - 1))))

/-! ## Session invariant -/

/-- The invariant of the session on the armed timers, the recorded timer ids,
the busy flag and the pending writes. -/
structure InvCore (timers : List Timer) (next : Nat) (busy : Bool)
    (busyId stallId : Option Nat) (pending : List PendingWrite) : Prop where
  /-- Armed ids have been handed out already. -/
  tid_lt : ∀ t ∈ timers, t.id < next
  /-- No two armed timers share an id. -/
  tid_inj : ∀ t ∈ timers, ∀ u ∈ timers, t.id = u.id → t = u
  /-- No id is armed twice. -/
  tid_nodup : (timers.map fun t => t.id).Nodup
  /-- An armed busy timer is the recorded one, runs for 5000 ms, and the flag is set. -/
  armed_busy : ∀ t ∈ timers, t.callback = .clearBusy →
    busy = true ∧ busyId = some t.id ∧ t.delay = 5000
  /-- While the flag is set the recorded busy timer is armed. -/
  busy_armed : busy = true → ∃ t ∈ timers, t.callback = .clearBusy ∧ busyId = some t.id
  /-- The recorded busy id has been handed out already. -/
  busyId_lt : ∀ i, busyId = some i → i < next
  /-- The recorded stall id has been handed out already. -/
  stallId_lt : ∀ i, stallId = some i → i < next
  /-- An armed timer under the recorded busy id is a busy timer. -/
  busyId_kind : ∀ t ∈ timers, busyId = some t.id → t.callback = .clearBusy
  /-- An armed timer under the recorded stall id is a stall timer. -/
  stallId_kind : ∀ t ∈ timers, stallId = some t.id → t.callback = .dataStopped
  /-- An armed stall timer runs for `BLETimeout`. -/
  stall_delay : ∀ t ∈ timers, t.callback = .dataStopped → t.delay = BLETimeout
  /-- The busy timer of a pending write has been handed out already. -/
  pend_lt : ∀ p ∈ pending, p.busyTimer < next
  /-- An armed timer under the id of a pending write's busy timer is a busy timer. -/
  pend_kind : ∀ p ∈ pending, ∀ t ∈ timers, t.id = p.busyTimer → t.callback = .clearBusy
  /-- No two pending writes share a busy timer. -/
  pend_nodup : (pending.map fun p => p.busyTimer).Nodup

/-- The session invariant of a state. -/
def Inv (w : World) : Prop :=
  InvCore w.timers w.nextTimerID w._busy w._busyTimeoutID w._timeoutID w.pending

/-- Whether an event is a connect callback. -/
def Event.isConnect : Event → Bool
  | .connectCallback => true
  | _ => false

/-- Whether every connect callback of the sequence arrives while no stall timer
is armed. -/
def connectsDisarmed (w : World) : List Event → Bool
  | [] => true
  | e :: events =>
    (!e.isConnect || (armedTimers w .dataStopped).isEmpty) && connectsDisarmed (step w e) events

/-- Every armed stall timer is the one recorded in `_timeoutID`. -/
def StallRecorded (w : World) : Prop :=
  ∀ t ∈ w.timers, t.callback = .dataStopped → w._timeoutID = some t.id

/-- With no inbound frame after a connect that armed the stall timer `x`:
either the hook has not fired and every armed stall timer is `x`, or the hook
has fired once and no stall timer is armed. -/
def NoFrameInv (x : Nat) (w : World) : Prop :=
  (w.disconnectErrors = [] ∧ ∀ t ∈ w.timers, t.callback = .dataStopped → t.id = x) ∨
  (w.disconnectErrors = [BLEDataStoppedError] ∧ ∀ t ∈ w.timers, t.callback ≠ .dataStopped)

/-- Whether an event is a call of `send`. -/
def Event.isSend : Event → Bool
  | .send _ _ => true
  | _ => false

/-- Whether an event can arm a stall timer: a connect callback or an inbound frame. -/
def Event.armsStall : Event → Bool
  | .connectCallback => true
  | .message _ => true
  | _ => false

/-- Whether an event is the expiry of an armed busy-safety timer. -/
def expiresBusy (w : World) : Event → Bool
  | .timerExpired id =>
    match w.timers.find? (fun t => t.id == id) with
    | some t => decide (t.callback = .clearBusy)
    | none => false
  | _ => false

/-- Whether no busy-safety timer expires in the course of the sequence. -/
def noBusyExpiry (w : World) : List Event → Bool
  | [] => true
  | e :: events => !expiresBusy w e && noBusyExpiry (step w e) events

/-! ## Base64: decoding inverts encoding -/

theorem base64Value_base64Digit : ∀ n, n < 64 → base64Value (base64Digit n) = some n := by
  decide

theorem base64Digit_ne_pad : ∀ n, n < 64 → base64Digit n ≠ '=' := by
  decide

theorem decodeChars_encodeBytes (bytes : List Nat) (h : ∀ b ∈ bytes, b < 256) :
    decodeChars (encodeBytes bytes) = some bytes := by
  induction bytes using encodeBytes.induct with
  | case1 => simp [encodeBytes, decodeChars]
  | case2 a =>
    have ha : a < 256 := h a (by simp)
    have h1 := base64Value_base64Digit (a / 4) (by omega)
    have h2 := base64Value_base64Digit (a % 4 * 16) (by omega)
    simp only [encodeBytes, decodeChars, h1, h2]
    simp
    omega
  | case3 a b =>
    have ha : a < 256 := h a (by simp)
    have hb : b < 256 := h b (by simp)
    have h1 := base64Value_base64Digit (a / 4) (by omega)
    have h2 := base64Value_base64Digit (a % 4 * 16 + b / 16) (by omega)
    have h3 := base64Value_base64Digit (b % 16 * 4) (by omega)
    have n3 := base64Digit_ne_pad (b % 16 * 4) (by omega)
    simp only [encodeBytes, decodeChars, h1, h2, h3]
    simp [n3]
    omega
  | case4 a b c rest ih =>
    have ha : a < 256 := h a (by simp)
    have hb : b < 256 := h b (by simp)
    have hc : c < 256 := h c (by simp)
    have h1 := base64Value_base64Digit (a / 4) (by omega)
    have h2 := base64Value_base64Digit (a % 4 * 16 + b / 16) (by omega)
    have h3 := base64Value_base64Digit (b % 16 * 4 + c / 64) (by omega)
    have h4 := base64Value_base64Digit (c % 64) (by omega)
    have n4 := base64Digit_ne_pad (c % 64) (by omega)
    have ih' := ih (fun x hx => h x (by simp [hx]))
    simp only [encodeBytes, decodeChars, h1, h2, h3, h4, ih']
    simp [n4]
    omega

theorem base64ToUint8Array_uint8ArrayToBase64 (bytes : List Nat) (h : ∀ b ∈ bytes, b < 256) :
    base64ToUint8Array (uint8ArrayToBase64 bytes) = .ok bytes := by
  simp [base64ToUint8Array, uint8ArrayToBase64, decodeChars_encodeBytes bytes h]

/-! ## Loops that copy bytes into a Uint8Array -/

theorem forRange_succ {σ : Type} (n : Nat) (body : σ → Nat → σ) (init : σ) :
    forRange (n + 1) body init = body (forRange n body init) n := by
  simp [forRange, List.range_succ]

theorem forRange_zero {σ : Type} (body : σ → Nat → σ) (init : σ) :
    forRange 0 body init = init := by
  simp [forRange]

theorem length_copyLoop (data out : List Nat) (o m : Nat) :
    (forRange m (fun out i => u8store out (i + o) (u8load data i)) out).length = out.length := by
  induction m with
  | zero => simp [forRange_zero]
  | succ m ih =>
    rw [forRange_succ]
    show (u8store _ _ _).length = _
    rw [u8store, List.length_set, ih]

theorem getElem?_copyLoop (data out : List Nat) (o m : Nat) (hm : m ≤ data.length)
    (hb : ∀ b ∈ data, b < 256) (k : Nat) :
    (forRange m (fun out i => u8store out (i + o) (u8load data i)) out)[k]? =
      if o ≤ k ∧ k < o + m ∧ k < out.length then data[k - o]? else out[k]? := by
  induction m with
  | zero =>
    simp only [forRange_zero]
    split
    · omega
    · rfl
  | succ m ih =>
    have ihm := ih (by omega)
    have hlen := length_copyLoop data out o m
    have hlt : m < data.length := by omega
    have hbyte : data[m] < 256 := hb _ (List.getElem_mem hlt)
    rw [forRange_succ]
    show (u8store _ (m + o) (u8load data m))[k]? = _
    generalize forRange m (fun out i => u8store out (i + o) (u8load data i)) out = acc at ihm hlen
    have hload : u8load data m % 256 = data[m] := by
      simp [u8load, List.getElem?_eq_getElem hlt, Nat.mod_eq_of_lt hbyte]
    rw [u8store, hload, List.getElem?_set, hlen, ihm]
    by_cases hk : m + o = k
    · subst hk
      by_cases hl : m + o < out.length
      · have hc' : o ≤ m + o ∧ m + o < o + (m + 1) ∧ m + o < out.length := by omega
        simp [hl, hc', List.getElem?_eq_getElem hlt]
      · have hc' : ¬ (o ≤ m + o ∧ m + o < o + (m + 1) ∧ m + o < out.length) := by omega
        have : out.length ≤ m + o := by omega
        simp [hl, List.getElem?_eq_none this]
    · simp only [hk, if_false]
      by_cases hc : o ≤ k ∧ k < o + m ∧ k < out.length
      · have hc' : o ≤ k ∧ k < o + (m + 1) ∧ k < out.length := by omega
        simp only [hc, hc', and_self, if_true]
      · have hc' : ¬ (o ≤ k ∧ k < o + (m + 1) ∧ k < out.length) := by omega
        simp only [hc, hc', if_false]

/-- The buffer of `send` is the command byte followed by the payload. -/
theorem sendOutput_eq (command : Nat) (message : List Nat) (hc : command < 256)
    (hb : ∀ b ∈ message, b < 256) : sendOutput command message = command :: message := by
  apply List.ext_getElem?
  intro k
  simp only [sendOutput]
  rw [getElem?_copyLoop message _ 1 message.length (Nat.le_refl _) hb k]
  simp only [u8store, newUint8Array, List.length_set, List.length_replicate]
  cases k with
  | zero => simp [Nat.mod_eq_of_lt hc]
  | succ k =>
    by_cases hk : k < message.length
    · simp [hk]
      omega
    · have : message.length ≤ k := by omega
      simp [hk, List.getElem?_eq_none this, List.getElem?_replicate]

theorem base64Value_lt (c : Char) (v : Nat) (h : base64Value c = some v) : v < 64 := by
  unfold base64Value at h
  split at h
  · cases h
    assumption
  · cases h

theorem decodeChars_bytes (cs : List Char) :
    ∀ bytes, decodeChars cs = some bytes → ∀ b ∈ bytes, b < 256 := by
  induction cs using decodeChars.induct with
  | case1 =>
    intro bytes h
    simp [decodeChars] at h
    subst h
    simp
  | case2 c1 c2 c3 c4 rest s1 s2 e2 e1 hpad =>
    intro bytes h
    have l1 := base64Value_lt _ _ e1
    have l2 := base64Value_lt _ _ e2
    simp only [decodeChars, e1, e2, hpad, if_true] at h
    cases h
    simp
    omega
  | case3 c1 c2 c3 c4 rest s1 s2 e2 e1 hpad e3 =>
    intro bytes h
    simp [decodeChars, e1, e2, hpad, e3] at h
  | case4 c1 c2 c3 c4 rest s1 s2 e2 e1 hpad s3 e3 hpad2 =>
    intro bytes h
    have l1 := base64Value_lt _ _ e1
    have l2 := base64Value_lt _ _ e2
    have l3 := base64Value_lt _ _ e3
    rw [decodeChars] at h
    simp only [e1, e2, e3, if_neg hpad, if_pos hpad2] at h
    cases h
    simp
    omega
  | case5 c1 c2 c3 c4 rest s1 s2 e2 e1 hpad s3 e3 hpad2 s4 tail et e4 ih =>
    intro bytes h
    have l1 := base64Value_lt _ _ e1
    have l2 := base64Value_lt _ _ e2
    have l3 := base64Value_lt _ _ e3
    have l4 := base64Value_lt _ _ e4
    rw [decodeChars] at h
    simp only [e1, e2, e3, e4, et, if_neg hpad, if_neg hpad2] at h
    cases h
    intro b hb
    simp only [List.mem_cons] at hb
    rcases hb with hb | hb | hb | hb
    · omega
    · omega
    · omega
    · exact ih tail et b hb
  | case6 c1 c2 c3 c4 rest s1 s2 e2 e1 hpad s3 e3 hpad2 hno ih =>
    intro bytes h
    rw [decodeChars] at h
    simp only [e1, e2, e3, if_neg hpad, if_neg hpad2] at h
    cases h
  | case7 c1 c2 c3 c4 rest hno =>
    intro bytes h
    rw [decodeChars] at h
    split at h
    · rename_i s1 s2 e1 e2
      exact (hno s1 s2 e1 e2).elim
    · cases h
  | case8 cs h1 h2 =>
    intro bytes h
    unfold decodeChars at h
    split at h
    · exact absurd rfl h1
    · exact absurd rfl (h2 _ _ _ _ _)
    · cases h

theorem base64ToUint8Array_bytes (text : String) (bytes : List Nat)
    (h : base64ToUint8Array text = .ok bytes) : ∀ b ∈ bytes, b < 256 := by
  unfold base64ToUint8Array at h
  split at h
  · rename_i decoded hd
    cases h
    exact decodeChars_bytes _ _ hd
  · cases h

theorem suffixLoop_eq (suffix : List Nat) (n : Nat) (out : List Nat) (i : Nat) :
    forRange n (fun st j => (u8store st.1 (st.2 + 1) (u8load suffix j), st.2 + 1)) (out, i) =
      (forRange n (fun out j => u8store out (j + (i + 1)) (u8load suffix j)) out, i + n) := by
  induction n with
  | zero => simp [forRange_zero]
  | succ n ih =>
    rw [forRange_succ, forRange_succ, ih]
    have e : i + n + 1 = n + (i + 1) := by omega
    have e2 : i + (n + 1) = n + (i + 1) := by omega
    simp only [e, e2]

/-- The buffer `_funcPrefix` fills when there is no suffix script. -/
theorem prefixOutput_eq (funcCode : Nat) (data : List Nat) (hf : funcCode < 256)
    (hd : ∀ b ∈ data, b < 256) :
    forRange data.length (fun out i => u8store out (i + 1) (u8load data i))
      (u8store (newUint8Array (data.length + 1)) 0 funcCode) = funcCode :: data :=
  sendOutput_eq funcCode data hf hd

/-- The buffer `_funcPrefix` fills when a suffix script is given. -/
theorem suffixOutput_eq (funcCode : Nat) (data suffix : List Nat) (hf : funcCode < 256)
    (hd : ∀ b ∈ data, b < 256) (hs : ∀ b ∈ suffix, b < 256) :
    (forRange suffix.length
      (fun st j => (u8store st.1 (st.2 + 1) (u8load suffix j), st.2 + 1))
      (forRange data.length (fun out i => u8store out (i + 1) (u8load data i))
        (u8store (newUint8Array (data.length + 1 + suffix.length)) 0 funcCode),
        data.length)).1 = funcCode :: (data ++ suffix) := by
  rw [suffixLoop_eq]
  apply List.ext_getElem?
  intro k
  show (forRange suffix.length _ _)[k]? = _
  rw [getElem?_copyLoop suffix _ (data.length + 1) suffix.length (Nat.le_refl _) hs k,
    getElem?_copyLoop data _ 1 data.length (Nat.le_refl _) hd k]
  simp only [length_copyLoop]
  simp only [u8store, newUint8Array, List.length_set, List.length_replicate]
  cases k with
  | zero => simp [Nat.mod_eq_of_lt hf]
  | succ k =>
    rw [List.getElem?_cons_succ, List.getElem?_append]
    by_cases h1 : k < data.length
    · have c1 : ¬ (data.length + 1 ≤ k + 1 ∧ k + 1 < data.length + 1 + suffix.length ∧
          k + 1 < data.length + 1 + suffix.length) := by omega
      have c2 : 1 ≤ k + 1 ∧ k + 1 < 1 + data.length ∧
          k + 1 < data.length + 1 + suffix.length := by omega
      simp [h1, c1, c2]
    · by_cases h2 : k < data.length + suffix.length
      · have c1 : data.length + 1 ≤ k + 1 ∧ k + 1 < data.length + 1 + suffix.length ∧
            k + 1 < data.length + 1 + suffix.length := by omega
        have e : k + 1 - (data.length + 1) = k - data.length := by omega
        simp [h1, c1, e]
      · have c1 : ¬ (data.length + 1 ≤ k + 1 ∧ k + 1 < data.length + 1 + suffix.length ∧
            k + 1 < data.length + 1 + suffix.length) := by omega
        have c2 : ¬ (1 ≤ k + 1 ∧ k + 1 < 1 + data.length ∧
            k + 1 < data.length + 1 + suffix.length) := by omega
        have c3 : suffix.length ≤ k - data.length := by omega
        have c4 : ¬ (k + 1 < data.length + 1 + suffix.length) := by omega
        simp [h1, c1, c2, List.getElem?_eq_none c3, List.getElem?_replicate, c4]

/-- The buffer `displayText` fills: the low byte of every code unit. -/
theorem displayOutput_eq (units : List Nat) (hu : ∀ b ∈ units, b < 256) :
    forRange units.length (fun out i => u8store out i (u8load units i))
      (newUint8Array units.length) = units := by
  have h := getElem?_copyLoop units (newUint8Array units.length) 0 units.length (Nat.le_refl _) hu
  apply List.ext_getElem?
  intro k
  have hk := h k
  simp only [Nat.add_zero] at hk
  rw [hk]
  by_cases c : k < units.length
  · simp [newUint8Array, c]
  · have c3 : units.length ≤ k := by omega
    simp [newUint8Array, c, List.getElem?_eq_none c3, List.getElem?_replicate]

theorem flatMap_units_ascii (cs : List Char) (h : ∀ ch ∈ cs, ch.toNat < 128) :
    (cs.flatMap fun c =>
      if c.toNat < 0x10000 then [c.toNat]
      else [0xD800 + (c.toNat - 0x10000) / 0x400, 0xDC00 + (c.toNat - 0x10000) % 0x400]) =
      cs.map Char.toNat := by
  induction cs with
  | nil => rfl
  | cons c cs ih =>
    have hc : c.toNat < 0x10000 := by
      have := h c (by simp)
      omega
    rw [List.flatMap_cons, List.map_cons, if_pos hc, ih (fun ch hch => h ch (by simp [hch]))]
    rfl

theorem utf16Units_ascii (text : String) (h : ∀ ch ∈ text.data, ch.toNat < 128) :
    utf16Units text = text.data.map Char.toNat :=
  flatMap_units_ascii text.data h

/-- The write `send` hands to the transport. -/
theorem send_accepted (w : World) (command : Nat) (message : List Nat) (ble : BLE)
    (hble : w._ble = some ble) (hconn : ble.connected = true) (hidle : w._busy = false) :
    send w command message = .ok
      { w with
        _busy := true
        _busyTimeoutID := some w.nextTimerID
        timers := w.timers ++ [⟨w.nextTimerID, .clearBusy, 5000⟩]
        nextTimerID := w.nextTimerID + 1
        writes := w.writes ++ [⟨BLEUUID_service, BLEUUID_txChar,
          uint8ArrayToBase64 (sendOutput command message), "base64", true⟩]
        pending := w.pending ++ [⟨w.writes.length, ⟨BLEUUID_service, BLEUUID_txChar,
          uint8ArrayToBase64 (sendOutput command message), "base64", true⟩, w.nextTimerID⟩] } := by
  have hc : isConnected w = true := by simp [isConnected, hble, hconn]
  simp only [send, hc, hidle, setTimeout, hble, bleWrite]
  rfl

theorem send_returns_unchanged (w : World) (command : Nat) (message : List Nat)
    (h : isConnected w = false ∨ w._busy = true) : send w command message = .ok w := by
  rcases h with h | h
  · simp [send, h]
  · simp [send, h]

/-! ## Command encoder: claims -/

/-- C1: for every command byte and payload bytes, a `send` issued while the
session is linked and not busy hands the transport exactly one write (the log
of writes grows by one entry, which is also the newest pending write), and the
base64 text of that write decodes to the command byte followed by the payload
bytes in order, `|payload| + 1` bytes in all. -/
theorem send_writes_one_frame (w : World) (command : Nat) (message : List Nat)
    (hlinked : isConnected w = true) (hidle : w._busy = false)
    (hc : command < 256) (hb : ∀ b ∈ message, b < 256) :
    ∃ w' write, send w command message = .ok w' ∧
      w'.writes = w.writes ++ [write] ∧
      w'.pending.map (fun p => p.write) = w.pending.map (fun p => p.write) ++ [write] ∧
      base64ToUint8Array write.message = .ok (command :: message) ∧
      (command :: message).length = message.length + 1 := by
  unfold isConnected at hlinked
  cases hble : w._ble with
  | none => simp [hble] at hlinked
  | some ble =>
    have hconn : ble.connected = true := by simpa [hble] using hlinked
    refine ⟨_, ⟨BLEUUID_service, BLEUUID_txChar,
      uint8ArrayToBase64 (sendOutput command message), "base64", true⟩,
      send_accepted w command message ble hble hconn hidle, ?_, ?_, ?_, ?_⟩
    · rfl
    · simp
    · show base64ToUint8Array (uint8ArrayToBase64 (sendOutput command message)) = _
      rw [sendOutput_eq command message hc hb]
      exact base64ToUint8Array_uint8ArrayToBase64 _ (by
        intro b hm
        rcases List.mem_cons.1 hm with h | h
        · omega
        · exact hb b h)
    · simp

/-- C1, witness: on a linked idle session, command 0x81 with the payload that
"AQID" decodes to. -/
theorem send_writes_one_frame_witness :
    base64ToUint8Array "AQID" = .ok [1, 2, 3] ∧
    isConnected (run constructor [.scan, .connectCallback]) = true ∧
    (run constructor [.scan, .connectCallback])._busy = false ∧
    (settle (run constructor [.scan, .connectCallback])
      (runTask (run constructor [.scan, .connectCallback]) "AQID")).writes.map
        (fun x => x.message) = [uint8ArrayToBase64 [0x81, 0x01, 0x02, 0x03]] ∧
    ∃ w' write, send (run constructor [.scan, .connectCallback]) 0x81 [1, 2, 3] = .ok w' ∧
      w'.writes = (run constructor [.scan, .connectCallback]).writes ++ [write] ∧
      w'.pending.map (fun p => p.write) =
        (run constructor [.scan, .connectCallback]).pending.map (fun p => p.write) ++ [write] ∧
      base64ToUint8Array write.message = .ok [0x81, 1, 2, 3] ∧
      [0x81, 1, 2, 3].length = [1, 2, 3].length + 1 :=
  ⟨rfl, by decide, by decide, by decide,
    send_writes_one_frame (run constructor [.scan, .connectCallback]) 0x81 [1, 2, 3]
      (by decide) (by decide) (by decide) (by decide)⟩

/-- C2: for every function byte and fixed data bytes, `_funcPrefix` without a
suffix script returns text that decodes to exactly the function byte followed
by the fixed data, and with any valid base64 suffix script it returns text that
decodes to exactly the function byte, the fixed data and the decoded suffix,
`1 + |data| + |suffix|` bytes in all. -/
theorem funcPrefix_decodes (funcCode : Nat) (data : List Nat)
    (hf : funcCode < 256) (hd : ∀ b ∈ data, b < 256) :
    (∃ text, _funcPrefix funcCode data none = .ok text ∧
      base64ToUint8Array text = .ok ([funcCode] ++ data)) ∧
    (∀ (s : String) (suffix : List Nat), base64ToUint8Array s = .ok suffix →
      ∃ text, _funcPrefix funcCode data (some s) = .ok text ∧
        base64ToUint8Array text = .ok ([funcCode] ++ data ++ suffix) ∧
        ([funcCode] ++ data ++ suffix).length = 1 + data.length + suffix.length) := by
  constructor
  · refine ⟨_, rfl, ?_⟩
    show base64ToUint8Array (uint8ArrayToBase64 _) = _
    rw [prefixOutput_eq funcCode data hf hd]
    exact base64ToUint8Array_uint8ArrayToBase64 _ (by
      intro b hm
      rcases List.mem_cons.1 hm with h | h
      · omega
      · exact hd b h)
  · intro s suffix hs
    have hsb := base64ToUint8Array_bytes s suffix hs
    refine ⟨uint8ArrayToBase64 (funcCode :: (data ++ suffix)), ?_, ?_, ?_⟩
    · simp only [_funcPrefix, hs]
      rw [suffixOutput_eq funcCode data suffix hf hd hsb]
    · have hall : ∀ b ∈ funcCode :: (data ++ suffix), b < 256 := by
        intro b hm
        rcases List.mem_cons.1 hm with h | h
        · omega
        · rcases List.mem_append.1 h with h | h
          · exact hd b h
          · exact hsb b h
      simpa using base64ToUint8Array_uint8ArrayToBase64 _ hall
    · simp
      omega

/-- C2, witness: function byte 0xC2, fixed data [3], suffix script "wUhp". -/
theorem funcPrefix_decodes_witness :
    base64ToUint8Array "wUhp" = .ok [0xC1, 0x48, 0x69] ∧
    (∃ text, _funcPrefix 0xC2 [3] none = .ok text ∧
      base64ToUint8Array text = .ok ([0xC2] ++ [3])) ∧
    (∃ text, _funcPrefix 0xC2 [3] (some "wUhp") = .ok text ∧
      base64ToUint8Array text = .ok ([0xC2] ++ [3] ++ [0xC1, 0x48, 0x69]) ∧
      ([0xC2] ++ [3] ++ [0xC1, 0x48, 0x69]).length = 1 + [3].length + [0xC1, 0x48, 0x69].length) :=
  ⟨rfl, (funcPrefix_decodes 0xC2 [3] (by decide) (by decide)).1,
    (funcPrefix_decodes 0xC2 [3] (by decide) (by decide)).2 "wUhp" [0xC1, 0x48, 0x69] rfl⟩

/-- C10: for every text of ASCII characters, `displayText` returns base64 text
that decodes to exactly 0xC1 followed by the character codes of the text in
order and nothing else, `|text| + 1` bytes in all. -/
theorem displayText_decodes (text : String) (h : ∀ ch ∈ text.data, ch.toNat < 128) :
    ∃ out, displayText text = .ok out ∧
      base64ToUint8Array out = .ok (0xC1 :: text.data.map Char.toNat) ∧
      (0xC1 :: text.data.map Char.toNat).length = text.length + 1 := by
  have hu : ∀ b ∈ utf16Units text, b < 256 := by
    rw [utf16Units_ascii text h]
    intro b hb
    rcases List.mem_map.1 hb with ⟨ch, hch, rfl⟩
    have := h ch hch
    omega
  have hbuf := displayOutput_eq (utf16Units text) hu
  have hpre := prefixOutput_eq FUNC_DISPLAY_TEXT (utf16Units text) (by decide) hu
  refine ⟨uint8ArrayToBase64 (0xC1 :: text.data.map Char.toNat), ?_, ?_, ?_⟩
  · simp only [displayText, _funcPrefix]
    rw [hbuf, hpre, utf16Units_ascii text h]
    rfl
  · exact base64ToUint8Array_uint8ArrayToBase64 _ (by
      intro b hm
      rcases List.mem_cons.1 hm with hb | hb
      · omega
      · rcases List.mem_map.1 hb with ⟨ch, hch, rfl⟩
        have := h ch hch
        omega)
  · rw [List.length_cons, List.length_map]
    rfl

/-- C10, witness: the text "Hi". -/
theorem displayText_decodes_witness :
    (0xC1 :: "Hi".data.map Char.toNat) = [0xC1, 0x48, 0x69] ∧
    ∃ out, displayText "Hi" = .ok out ∧
      base64ToUint8Array out = .ok (0xC1 :: "Hi".data.map Char.toNat) ∧
      (0xC1 :: "Hi".data.map Char.toNat).length = "Hi".length + 1 :=
  ⟨by decide, displayText_decodes "Hi" (by decide)⟩

/-! ## Inbound frames and the GPIO sample -/

theorem length_arrayStore (a : List (Option Nat)) (k v : Nat) (h : k ≤ a.length) :
    (arrayStore a k v).length = max a.length (k + 1) := by
  unfold arrayStore
  split
  · rw [List.length_set]
    omega
  · have e : k = a.length := by omega
    subst e
    simp

theorem getElem?_arrayStore (a : List (Option Nat)) (k v : Nat) (h : k ≤ a.length) (m : Nat) :
    (arrayStore a k v)[m]? = if m = k then some (some v) else a[m]? := by
  unfold arrayStore
  split
  · rename_i hk
    rw [List.getElem?_set]
    by_cases e : k = m
    · subst e
      simp [hk]
    · have e' : ¬ m = k := fun x => e x.symm
      simp [e, e']
  · have e : k = a.length := by omega
    subst e
    simp only [Nat.sub_self, List.replicate_zero, List.append_nil]
    rw [List.getElem?_append]
    by_cases c : m < a.length
    · have : ¬ m = a.length := by omega
      simp [c, this]
    · by_cases c2 : m = a.length
      · subst c2
        simp
      · have : a.length ≤ m := by omega
        have h1 : m - a.length ≠ 0 := by omega
        obtain ⟨d, hd⟩ := Nat.exists_eq_succ_of_ne_zero h1
        simp [c, c2, List.getElem?_eq_none this, hd]

/-- The inner loop of `_onMessage`: eight consecutive slots from `i` on. -/
theorem innerLoop_spec (f : Nat → Nat) (i J : Nat) (P : List (Option Nat)) (h : i ≤ P.length) :
    (forRange J (fun pins j => arrayStore pins (i + j) (f j)) P).length = max P.length (i + J) ∧
    ∀ k, (forRange J (fun pins j => arrayStore pins (i + j) (f j)) P)[k]? =
      if i ≤ k ∧ k < i + J then some (some (f (k - i))) else P[k]? := by
  induction J with
  | zero =>
    rw [forRange_zero]
    refine ⟨by omega, fun k => ?_⟩
    have : ¬ (i ≤ k ∧ k < i + 0) := by omega
    rw [if_neg this]
  | succ J ih =>
    obtain ⟨hl, hg⟩ := ih
    rw [forRange_succ]
    generalize forRange J (fun pins j => arrayStore pins (i + j) (f j)) P = acc at hl hg
    have hle : i + J ≤ acc.length := by omega
    refine ⟨?_, fun k => ?_⟩
    · show (arrayStore acc (i + J) (f J)).length = _
      rw [length_arrayStore acc _ _ hle]
      omega
    · show (arrayStore acc (i + J) (f J))[k]? = _
      rw [getElem?_arrayStore acc _ _ hle, hg]
      by_cases c : k = i + J
      · subst c
        have c2 : i ≤ i + J ∧ i + J < i + (J + 1) := by omega
        simp [c2]
      · by_cases c1 : i ≤ k ∧ k < i + J
        · have c2 : i ≤ k ∧ k < i + (J + 1) := by omega
          simp [c, c1, c2]
        · have c2 : ¬ (i ≤ k ∧ k < i + (J + 1)) := by omega
          simp [c, c1, c2]

/-- The two loops of `_onMessage` after the first `m` bytes of the frame. -/
theorem outerLoop_spec (data : List Nat) (G : List (Option Nat)) (m : Nat) :
    (forRange m (fun pins i => forRange 8
        (fun pins j => arrayStore pins (i + j) (u8load data i &&& (1 <<< (8 - j)))) pins)
        G).length = (if m = 0 then G.length else max G.length (m + 7)) ∧
    ∀ k, (forRange m (fun pins i => forRange 8
        (fun pins j => arrayStore pins (i + j) (u8load data i &&& (1 <<< (8 - j)))) pins) G)[k]? =
      if m ≠ 0 ∧ k < m + 7 then
        some (some (u8load data (min k (m - 1)) &&& (1 <<< (8 - (k - min k (m - 1))))))
      else G[k]? := by
  induction m with
  | zero =>
    rw [forRange_zero]
    simp
  | succ m ih =>
    obtain ⟨hl, hg⟩ := ih
    rw [forRange_succ]
    generalize forRange m (fun pins i => forRange 8
        (fun pins j => arrayStore pins (i + j) (u8load data i &&& (1 <<< (8 - j)))) pins)
        G = acc at hl hg
    have hle : m ≤ acc.length := by
      rw [hl]
      split
      · omega
      · omega
    obtain ⟨il, ig⟩ := innerLoop_spec (fun j => u8load data m &&& (1 <<< (8 - j))) m 8 acc hle
    refine ⟨?_, fun k => ?_⟩
    · show (forRange 8 _ acc).length = _
      rw [il, hl]
      split
      · simp
      · simp
        omega
    · show (forRange 8 _ acc)[k]? = _
      rw [ig, hg]
      by_cases c : m ≤ k ∧ k < m + 8
      · have c2 : m + 1 ≠ 0 ∧ k < m + 1 + 7 := by omega
        have e : min k (m + 1 - 1) = m := by
          rw [Nat.add_sub_cancel]
          omega
        rw [if_pos c, if_pos c2, e]
      · by_cases c3 : k < m
        · have c4 : m ≠ 0 ∧ k < m + 7 := by omega
          have c2 : m + 1 ≠ 0 ∧ k < m + 1 + 7 := by omega
          have e : min k (m + 1 - 1) = k := by
            rw [Nat.add_sub_cancel]
            omega
          have e2 : min k (m - 1) = k := by omega
          rw [if_neg c, if_pos c4, if_pos c2, e, e2]
        · have c4 : ¬ (m ≠ 0 ∧ k < m + 7) := by omega
          have c2 : ¬ (m + 1 ≠ 0 ∧ k < m + 1 + 7) := by omega
          rw [if_neg c, if_neg c4, if_neg c2]

theorem foldl_flatMap_assign (G : List (Option Nat)) (f : Nat → List (Nat × Nat)) (n : Nat) :
    performAssignments G ((List.range n).flatMap f) =
      forRange n (fun pins i => performAssignments pins (f i)) G := by
  induction n with
  | zero => simp [forRange_zero, performAssignments]
  | succ n ih =>
    rw [forRange_succ, ← ih]
    simp [performAssignments, List.range_succ, List.flatMap_append, List.foldl_append]

/-- The loops of `_onMessage` perform the described assignments in order. -/
theorem onMessagePins_eq_spec (data : List Nat) (G : List (Option Nat)) :
    onMessagePins data G = performAssignments G (specAssignments data) := by
  unfold specAssignments
  rw [foldl_flatMap_assign]
  unfold onMessagePins
  congr 1

theorem onMessage_ok (w : World) (base64 : String) (data : List Nat)
    (h : base64ToUint8Array base64 = .ok data) :
    _onMessage w base64 = .ok
      { w with
        GPIOPins := onMessagePins data w.GPIOPins
        timers := (clearTimeout w w._timeoutID).timers ++ [⟨w.nextTimerID, .dataStopped, BLETimeout⟩]
        nextTimerID := w.nextTimerID + 1
        _timeoutID := some w.nextTimerID } := by
  simp only [_onMessage, h, setTimeout]
  cases hid : w._timeoutID <;> simp [clearTimeout]

theorem settle_onMessage_GPIOPins (w : World) (base64 : String) (data : List Nat)
    (h : base64ToUint8Array base64 = .ok data) :
    (settle w (_onMessage w base64)).GPIOPins = onMessagePins data w.GPIOPins := by
  rw [onMessage_ok w base64 data h]
  rfl

theorem onMessage_error (w : World) (base64 : String) (e : JsError)
    (h : base64ToUint8Array base64 = .error e) : settle w (_onMessage w base64) = w := by
  simp [_onMessage, h, settle]

theorem settle_send_GPIOPins (w : World) (command : Nat) (message : List Nat) :
    (settle w (send w command message)).GPIOPins = w.GPIOPins := by
  unfold send
  split
  · rfl
  · split
    · rfl
    · simp only [setTimeout]
      split <;> rfl

theorem clearTimeout_GPIOPins (w : World) (id : Option Nat) :
    (clearTimeout w id).GPIOPins = w.GPIOPins := by
  cases id <;> rfl

/-- Only an inbound frame touches the sample. -/
theorem step_GPIOPins (w : World) (e : Event) (h : ∀ base64, e ≠ .message base64) :
    (step w e).GPIOPins = w.GPIOPins := by
  cases e with
  | scan =>
    simp only [step, scan]
    split <;> rfl
  | connectCallback =>
    simp only [step]
    split
    · rfl
    · simp [_onConnect, settle, setTimeout]
  | message base64 => exact absurd rfl (h base64)
  | send command message => exact settle_send_GPIOPins w command message
  | writeDone seq =>
    simp only [step]
    split
    · simp [writeResolved, clearTimeout_GPIOPins]
    · rfl
  | timerExpired id =>
    simp only [step]
    split
    · rfl
    · rename_i t _
      cases hc : t.callback
      · simp [runCallback]
      · simp only [runCallback]
        split <;> simp [handleDisconnectError]
  | reset =>
    simp only [step, reset]
    split
    · simp [clearTimeout_GPIOPins]
    · rfl
  | disconnect =>
    simp only [step, disconnect, reset]
    split <;> split <;> simp [clearTimeout_GPIOPins]
  | linkLost =>
    simp only [step]
    split <;> rfl

/-! ## Peripheral session and sample: claims -/

/-- C4: for every command byte and payload, a `send` issued while the session
is not linked or while the busy flag is set returns normally with the state
exactly as it was: no write is handed to the transport, and the busy flag, the
armed timers, the recorded timer ids and the GPIO sample are unchanged. -/
theorem send_dropped (w : World) (command : Nat) (message : List Nat)
    (h : isConnected w = false ∨ w._busy = true) :
    send w command message = .ok w ∧ step w (.send command message) = w := by
  have e := send_returns_unchanged w command message h
  refine ⟨e, ?_⟩
  simp [step, e, settle]

/-- C4, witness: the second of two rapid sends on a linked session, and a send
on a session that was never linked. -/
theorem send_dropped_witness :
    (isConnected (run constructor [.scan, .connectCallback, .send 0x81 [1]]) = false ∨
      (run constructor [.scan, .connectCallback, .send 0x81 [1]])._busy = true) ∧
    (run constructor [.scan, .connectCallback, .send 0x81 [1]]).writes.length = 1 ∧
    (run constructor [.scan, .connectCallback, .send 0x81 [1], .send 0x81 [2]]).writes.length = 1 ∧
    (send (run constructor [.scan, .connectCallback, .send 0x81 [1]]) 0x81 [2] =
        .ok (run constructor [.scan, .connectCallback, .send 0x81 [1]]) ∧
      step (run constructor [.scan, .connectCallback, .send 0x81 [1]]) (.send 0x81 [2]) =
        run constructor [.scan, .connectCallback, .send 0x81 [1]]) :=
  ⟨Or.inr (by decide), by decide, by decide,
    send_dropped (run constructor [.scan, .connectCallback, .send 0x81 [1]]) 0x81 [2]
      (Or.inr (by decide))⟩

/-- C7: for every inbound frame that decodes to bytes `b` and every prior
sample, `_onMessage` returns and leaves the sample equal to the result of the
assignments `G[i+j] := b[i] & (1 << (8-j))` for `i = 0..n-1` and, within each
`i`, `j = 0..7` in increasing order. In closed form: for `n = 0` the sample is
unchanged; for `n >= 1` every slot `k < n+7` ends as
`b[m] & (1 << (8 - (k - m)))` with `m = min(k, n-1)` and every slot `k >= n+7`
is unchanged; so the slots below `n+7` are the same whatever the prior sample. -/
theorem onMessage_sample (w : World) (base64 : String) (b : List Nat)
    (hdec : base64ToUint8Array base64 = .ok b) :
    ∃ w', _onMessage w base64 = .ok w' ∧
      w'.GPIOPins = performAssignments w.GPIOPins (specAssignments b) ∧
      (b.length = 0 → w'.GPIOPins = w.GPIOPins) ∧
      (1 ≤ b.length →
        (∀ k, k < b.length + 7 → w'.GPIOPins[k]? = some (some (closedSlot b k))) ∧
        (∀ k, b.length + 7 ≤ k → w'.GPIOPins[k]? = w.GPIOPins[k]?) ∧
        (∀ (v : World) (k : Nat), k < b.length + 7 →
          (settle v (_onMessage v base64)).GPIOPins[k]? = w'.GPIOPins[k]?)) := by
  refine ⟨_, onMessage_ok w base64 b hdec, ?_, ?_, ?_⟩
  · exact onMessagePins_eq_spec b w.GPIOPins
  · intro h0
    show onMessagePins b w.GPIOPins = _
    unfold onMessagePins
    rw [h0, forRange_zero]
  · intro h1
    have key : ∀ (G : List (Option Nat)) (k : Nat), k < b.length + 7 →
        (onMessagePins b G)[k]? = some (some (closedSlot b k)) := by
      intro G k hk
      have c : b.length ≠ 0 ∧ k < b.length + 7 := by omega
      rw [onMessagePins, (outerLoop_spec b G b.length).2 k, if_pos c]
      rfl
    refine ⟨fun k hk => key w.GPIOPins k hk, ?_, ?_⟩
    · intro k hk
      have c : ¬ (b.length ≠ 0 ∧ k < b.length + 7) := by omega
      show (onMessagePins b w.GPIOPins)[k]? = _
      rw [onMessagePins, (outerLoop_spec b w.GPIOPins b.length).2 k, if_neg c]
    · intro v k hk
      rw [settle_onMessage_GPIOPins v base64 b hdec, key v.GPIOPins k hk]
      exact (key w.GPIOPins k hk).symm

/-- C7, witness: the two-byte frame "Af4=" (bytes 0x01, 0xFE) on a fresh session. -/
theorem onMessage_sample_witness :
    base64ToUint8Array "Af4=" = .ok [0x01, 0xFE] ∧
    (List.range 9).map (closedSlot [0x01, 0xFE]) = [0, 0, 128, 64, 32, 16, 8, 4, 2] ∧
    ∃ w', _onMessage constructor "Af4=" = .ok w' ∧
      w'.GPIOPins = performAssignments constructor.GPIOPins (specAssignments [0x01, 0xFE]) ∧
      ([0x01, 0xFE].length = 0 → w'.GPIOPins = constructor.GPIOPins) ∧
      (1 ≤ [0x01, 0xFE].length →
        (∀ k, k < [0x01, 0xFE].length + 7 →
          w'.GPIOPins[k]? = some (some (closedSlot [0x01, 0xFE] k))) ∧
        (∀ k, [0x01, 0xFE].length + 7 ≤ k → w'.GPIOPins[k]? = constructor.GPIOPins[k]?) ∧
        (∀ (v : World) (k : Nat), k < [0x01, 0xFE].length + 7 →
          (settle v (_onMessage v "Af4=")).GPIOPins[k]? = w'.GPIOPins[k]?)) :=
  ⟨rfl, by decide, onMessage_sample constructor "Af4=" [0x01, 0xFE] rfl⟩

theorem length_onMessagePins (data : List Nat) (G : List (Option Nat)) :
    (onMessagePins data G).length =
      if data.length = 0 then G.length else max G.length (data.length + 7) :=
  (outerLoop_spec data G data.length).1

theorem run_cons (w : World) (e : Event) (events : List Event) :
    run w (e :: events) = run (step w e) events := rfl

theorem run_append (w : World) (xs ys : List Event) :
    run w (xs ++ ys) = run (run w xs) ys := by
  simp [run, List.foldl_append]

theorem step_message_length (w : World) (base64 : String)
    (hshort : ∀ data, base64ToUint8Array base64 = .ok data → data.length ≤ 25)
    (h : w.GPIOPins.length = 32) : (step w (.message base64)).GPIOPins.length = 32 := by
  show (settle w (_onMessage w base64)).GPIOPins.length = 32
  cases hd : base64ToUint8Array base64 with
  | error e => rw [onMessage_error w base64 e hd, h]
  | ok data =>
    have := hshort data hd
    rw [settle_onMessage_GPIOPins w base64 data hd, length_onMessagePins, h]
    split
    · rfl
    · omega

theorem run_length_short (events : List Event) :
    ∀ w : World, w.GPIOPins.length = 32 →
    (∀ base64 data, Event.message base64 ∈ events →
      base64ToUint8Array base64 = .ok data → data.length ≤ 25) →
    (run w events).GPIOPins.length = 32 := by
  induction events with
  | nil => exact fun w h _ => h
  | cons e events ih =>
    intro w h hshort
    rw [run_cons]
    apply ih
    · by_cases hm : ∃ base64, e = .message base64
      · obtain ⟨base64, rfl⟩ := hm
        exact step_message_length w base64
          (fun data hd => hshort base64 data (List.mem_cons_self _ _) hd) h
      · rw [step_GPIOPins w e (fun base64 he => hm ⟨base64, he⟩), h]
    · exact fun base64 data hmem hd => hshort base64 data (List.mem_cons_of_mem _ hmem) hd

set_option maxRecDepth 100000 in
/-- C8, counterexample: on a fresh session one inbound frame of 26 bytes lands a
write at index 32 and leaves the sample with 33 slots. -/
theorem sample_grows_on_long_frame :
    constructor.GPIOPins.length = 32 ∧
    base64ToUint8Array "AAAAAAAAAAAAAAAAAAAAAAAAAAAAAAAAAAA=" = .ok (List.replicate 26 0) ∧
    (run constructor [.message "AAAAAAAAAAAAAAAAAAAAAAAAAAAAAAAAAAA="]).GPIOPins.length = 33 ∧
    (run constructor [.message "AAAAAAAAAAAAAAAAAAAAAAAAAAAAAAAAAAA="]).GPIOPins[32]? =
      some (some 0) :=
  ⟨rfl, rfl, by decide, by decide⟩

/-- C8, amended: the sample has 32 slots at construction; an inbound frame of
`n >= 1` bytes leaves it with `max(slots before, n + 7)` slots and an empty
frame leaves the count as it was; hence after every sequence of events whose
inbound frames have at most 25 bytes each the sample still has exactly 32 slots. -/
theorem sample_size (events : List Event)
    (hshort : ∀ base64 data, Event.message base64 ∈ events →
      base64ToUint8Array base64 = .ok data → data.length ≤ 25) :
    constructor.GPIOPins.length = 32 ∧
    (∀ (w : World) (base64 : String) (data : List Nat),
      base64ToUint8Array base64 = .ok data →
      (settle w (_onMessage w base64)).GPIOPins.length =
        if data.length = 0 then w.GPIOPins.length
        else max w.GPIOPins.length (data.length + 7)) ∧
    (run constructor events).GPIOPins.length = 32 := by
  refine ⟨rfl, ?_, run_length_short events constructor rfl hshort⟩
  intro w base64 data hd
  rw [settle_onMessage_GPIOPins w base64 data hd, length_onMessagePins]

/-- C8, witness: a connect followed by a two-byte frame and a three-byte frame. -/
theorem sample_size_witness :
    (∀ base64 data,
      Event.message base64 ∈ [Event.scan, .connectCallback, .message "Af4=", .message "AQID"] →
      base64ToUint8Array base64 = .ok data → data.length ≤ 25) ∧
    (constructor.GPIOPins.length = 32 ∧
    (∀ (w : World) (base64 : String) (data : List Nat),
      base64ToUint8Array base64 = .ok data →
      (settle w (_onMessage w base64)).GPIOPins.length =
        if data.length = 0 then w.GPIOPins.length
        else max w.GPIOPins.length (data.length + 7)) ∧
    (run constructor [.scan, .connectCallback, .message "Af4=", .message "AQID"]).GPIOPins.length
      = 32) :=
  have h : ∀ base64 data,
      Event.message base64 ∈ [Event.scan, .connectCallback, .message "Af4=", .message "AQID"] →
      base64ToUint8Array base64 = .ok data → data.length ≤ 25 := by
    intro base64 data hmem hd
    simp only [List.mem_cons, List.mem_singleton, reduceCtorEq, false_or, Event.message.injEq,
      List.not_mem_nil, or_false] at hmem
    rcases hmem with rfl | rfl
    · have e : base64ToUint8Array "Af4=" = .ok [0x01, 0xFE] := rfl
      rw [e] at hd
      cases hd
      decide
    · have e : base64ToUint8Array "AQID" = .ok [1, 2, 3] := rfl
      rw [e] at hd
      cases hd
      decide
  ⟨h, sample_size [.scan, .connectCallback, .message "Af4=", .message "AQID"] h⟩

/-! ## The session invariant holds in every reachable state -/

theorem mem_filter_id {ts : List Timer} {x : Nat} {t : Timer}
    (h : t ∈ ts.filter fun t => t.id != x) : t ∈ ts ∧ t.id ≠ x := by
  rcases List.mem_filter.1 h with ⟨h1, h2⟩
  exact ⟨h1, by simpa using h2⟩

theorem InvCore.init : InvCore [] 1 false none none [] where
  tid_lt := by simp
  tid_inj := by simp
  tid_nodup := by simp
  armed_busy := by simp
  busy_armed := by simp
  busyId_lt := by simp
  stallId_lt := by simp
  busyId_kind := by simp
  stallId_kind := by simp
  stall_delay := by simp
  pend_lt := by simp
  pend_kind := by simp
  pend_nodup := by simp

/-- Disarming a timer other than the armed busy timer keeps the invariant. -/
theorem InvCore.filterTimers {ts : List Timer} {n : Nat} {b : Bool} {bi si : Option Nat}
    {p : List PendingWrite} (h : InvCore ts n b bi si p) (x : Nat)
    (hx : b = true → ∀ t ∈ ts, t.callback = .clearBusy → t.id ≠ x) :
    InvCore (ts.filter fun t => t.id != x) n b bi si p where
  tid_lt := fun t ht => h.tid_lt t (mem_filter_id ht).1
  tid_inj := fun t ht u hu => h.tid_inj t (mem_filter_id ht).1 u (mem_filter_id hu).1
  tid_nodup := (h.tid_nodup).sublist ((List.filter_sublist ts).map _)
  armed_busy := fun t ht => h.armed_busy t (mem_filter_id ht).1
  busy_armed := by
    intro hb
    obtain ⟨t, ht, hc, hi⟩ := h.busy_armed hb
    refine ⟨t, List.mem_filter.2 ⟨ht, ?_⟩, hc, hi⟩
    simpa using hx hb t ht hc
  busyId_lt := h.busyId_lt
  stallId_lt := h.stallId_lt
  busyId_kind := fun t ht => h.busyId_kind t (mem_filter_id ht).1
  stallId_kind := fun t ht => h.stallId_kind t (mem_filter_id ht).1
  stall_delay := fun t ht => h.stall_delay t (mem_filter_id ht).1
  pend_lt := h.pend_lt
  pend_kind := fun q hq t ht => h.pend_kind q hq t (mem_filter_id ht).1
  pend_nodup := h.pend_nodup

/-- Disarming every busy timer and clearing the flag keeps the invariant. -/
theorem InvCore.unbusy {ts : List Timer} {n : Nat} {b : Bool} {bi si : Option Nat}
    {p : List PendingWrite} (h : InvCore ts n b bi si p) (x : Nat)
    (hx : ∀ t ∈ ts, t.callback = .clearBusy → t.id = x) :
    InvCore (ts.filter fun t => t.id != x) n false bi si p where
  tid_lt := fun t ht => h.tid_lt t (mem_filter_id ht).1
  tid_inj := fun t ht u hu => h.tid_inj t (mem_filter_id ht).1 u (mem_filter_id hu).1
  tid_nodup := (h.tid_nodup).sublist ((List.filter_sublist ts).map _)
  armed_busy := fun t ht hc =>
    absurd (hx t (mem_filter_id ht).1 hc) (mem_filter_id ht).2
  busy_armed := fun hb => by cases hb
  busyId_lt := h.busyId_lt
  stallId_lt := h.stallId_lt
  busyId_kind := fun t ht => h.busyId_kind t (mem_filter_id ht).1
  stallId_kind := fun t ht => h.stallId_kind t (mem_filter_id ht).1
  stall_delay := fun t ht => h.stall_delay t (mem_filter_id ht).1
  pend_lt := h.pend_lt
  pend_kind := fun q hq t ht => h.pend_kind q hq t (mem_filter_id ht).1
  pend_nodup := h.pend_nodup

/-- Clearing the flag while no busy timer is armed keeps the invariant. -/
theorem InvCore.setIdle {ts : List Timer} {n : Nat} {b : Bool} {bi si : Option Nat}
    {p : List PendingWrite} (h : InvCore ts n b bi si p)
    (hno : ∀ t ∈ ts, t.callback ≠ .clearBusy) : InvCore ts n false bi si p where
  tid_lt := h.tid_lt
  tid_inj := h.tid_inj
  tid_nodup := h.tid_nodup
  armed_busy := fun t ht hc => absurd hc (hno t ht)
  busy_armed := fun hb => by cases hb
  busyId_lt := h.busyId_lt
  stallId_lt := h.stallId_lt
  busyId_kind := h.busyId_kind
  stallId_kind := h.stallId_kind
  stall_delay := h.stall_delay
  pend_lt := h.pend_lt
  pend_kind := h.pend_kind
  pend_nodup := h.pend_nodup

/-- Forgetting the recorded stall id keeps the invariant. -/
theorem InvCore.stallNone {ts : List Timer} {n : Nat} {b : Bool} {bi si : Option Nat}
    {p : List PendingWrite} (h : InvCore ts n b bi si p) : InvCore ts n b bi none p where
  tid_lt := h.tid_lt
  tid_inj := h.tid_inj
  tid_nodup := h.tid_nodup
  armed_busy := h.armed_busy
  busy_armed := h.busy_armed
  busyId_lt := h.busyId_lt
  stallId_lt := by simp
  busyId_kind := h.busyId_kind
  stallId_kind := by simp
  stall_delay := h.stall_delay
  pend_lt := h.pend_lt
  pend_kind := h.pend_kind
  pend_nodup := h.pend_nodup

/-- Resolving pending writes keeps the invariant. -/
theorem InvCore.filterPending {ts : List Timer} {n : Nat} {b : Bool} {bi si : Option Nat}
    {p : List PendingWrite} (h : InvCore ts n b bi si p) (f : PendingWrite → Bool) :
    InvCore ts n b bi si (p.filter f) where
  tid_lt := h.tid_lt
  tid_inj := h.tid_inj
  tid_nodup := h.tid_nodup
  armed_busy := h.armed_busy
  busy_armed := h.busy_armed
  busyId_lt := h.busyId_lt
  stallId_lt := h.stallId_lt
  busyId_kind := h.busyId_kind
  stallId_kind := h.stallId_kind
  stall_delay := h.stall_delay
  pend_lt := fun q hq => h.pend_lt q (List.mem_filter.1 hq).1
  pend_kind := fun q hq => h.pend_kind q (List.mem_filter.1 hq).1
  pend_nodup := (h.pend_nodup).sublist ((List.filter_sublist p).map _)

theorem mem_snoc {ts : List Timer} {a t : Timer} (h : t ∈ ts ++ [a]) : t ∈ ts ∨ t = a := by
  simpa using h

/-- Arming a stall timer under a fresh id and recording it keeps the invariant. -/
theorem InvCore.armStall {ts : List Timer} {n : Nat} {b : Bool} {bi si : Option Nat}
    {p : List PendingWrite} (h : InvCore ts n b bi si p) :
    InvCore (ts ++ [⟨n, .dataStopped, BLETimeout⟩]) (n + 1) b bi (some n) p where
  tid_lt := by
    intro t ht
    rcases mem_snoc ht with ht | rfl
    · exact Nat.lt_succ_of_lt (h.tid_lt t ht)
    · exact Nat.lt_succ_self _
  tid_inj := by
    intro t ht u hu e
    rcases mem_snoc ht with ht | rfl <;> rcases mem_snoc hu with hu | rfl
    · exact h.tid_inj t ht u hu e
    · exact absurd e (Nat.ne_of_lt (h.tid_lt t ht))
    · exact absurd e.symm (Nat.ne_of_lt (h.tid_lt u hu))
    · rfl
  tid_nodup := by
    rw [List.map_append, List.nodup_append]
    refine ⟨h.tid_nodup, by simp, ?_⟩
    intro a ha hb
    rcases List.mem_map.1 ha with ⟨t, ht, rfl⟩
    have := h.tid_lt t ht
    simp at hb
    omega
  armed_busy := by
    intro t ht hc
    rcases mem_snoc ht with ht | rfl
    · exact h.armed_busy t ht hc
    · cases hc
  busy_armed := by
    intro hb
    obtain ⟨t, ht, hc, hi⟩ := h.busy_armed hb
    exact ⟨t, List.mem_append_left _ ht, hc, hi⟩
  busyId_lt := fun i hi => Nat.lt_succ_of_lt (h.busyId_lt i hi)
  stallId_lt := by
    intro i hi
    cases hi
    exact Nat.lt_succ_self _
  busyId_kind := by
    intro t ht hi
    rcases mem_snoc ht with ht | rfl
    · exact h.busyId_kind t ht hi
    · exact absurd (h.busyId_lt _ hi) (Nat.lt_irrefl _)
  stallId_kind := by
    intro t ht hi
    rcases mem_snoc ht with ht | rfl
    · have e : n = t.id := by simpa using hi
      exact absurd (h.tid_lt t ht) (by omega)
    · rfl
  stall_delay := by
    intro t ht hc
    rcases mem_snoc ht with ht | rfl
    · exact h.stall_delay t ht hc
    · rfl
  pend_lt := fun q hq => Nat.lt_succ_of_lt (h.pend_lt q hq)
  pend_kind := by
    intro q hq t ht e
    rcases mem_snoc ht with ht | rfl
    · exact h.pend_kind q hq t ht e
    · have := h.pend_lt q hq
      simp only at e
      omega
  pend_nodup := h.pend_nodup

/-- An accepted send keeps the invariant: flag set, busy timer armed under a
fresh id and recorded, write pending. -/
theorem InvCore.armBusy {ts : List Timer} {n : Nat} {bi si : Option Nat}
    {p : List PendingWrite} (h : InvCore ts n false bi si p) (seq : Nat) (write : Write) :
    InvCore (ts ++ [⟨n, .clearBusy, 5000⟩]) (n + 1) true (some n) si
      (p ++ [⟨seq, write, n⟩]) where
  tid_lt := by
    intro t ht
    rcases mem_snoc ht with ht | rfl
    · exact Nat.lt_succ_of_lt (h.tid_lt t ht)
    · exact Nat.lt_succ_self _
  tid_inj := by
    intro t ht u hu e
    rcases mem_snoc ht with ht | rfl <;> rcases mem_snoc hu with hu | rfl
    · exact h.tid_inj t ht u hu e
    · exact absurd e (Nat.ne_of_lt (h.tid_lt t ht))
    · exact absurd e.symm (Nat.ne_of_lt (h.tid_lt u hu))
    · rfl
  tid_nodup := by
    rw [List.map_append, List.nodup_append]
    refine ⟨h.tid_nodup, by simp, ?_⟩
    intro a ha hb
    rcases List.mem_map.1 ha with ⟨t, ht, rfl⟩
    have := h.tid_lt t ht
    simp at hb
    omega
  armed_busy := by
    intro t ht hc
    rcases mem_snoc ht with ht | rfl
    · have := (h.armed_busy t ht hc).1
      cases this
    · exact ⟨rfl, rfl, rfl⟩
  busy_armed := fun _ => ⟨⟨n, .clearBusy, 5000⟩, by simp, rfl, rfl⟩
  busyId_lt := by
    intro i hi
    cases hi
    exact Nat.lt_succ_self _
  stallId_lt := fun i hi => Nat.lt_succ_of_lt (h.stallId_lt i hi)
  busyId_kind := by
    intro t ht hi
    rcases mem_snoc ht with ht | rfl
    · have e : n = t.id := by simpa using hi
      exact absurd (h.tid_lt t ht) (by omega)
    · rfl
  stallId_kind := by
    intro t ht hi
    rcases mem_snoc ht with ht | rfl
    · exact h.stallId_kind t ht hi
    · exact absurd (h.stallId_lt _ hi) (Nat.lt_irrefl _)
  stall_delay := by
    intro t ht hc
    rcases mem_snoc ht with ht | rfl
    · exact h.stall_delay t ht hc
    · cases hc
  pend_lt := by
    intro q hq
    rcases List.mem_append.1 hq with hq | hq
    · exact Nat.lt_succ_of_lt (h.pend_lt q hq)
    · rw [List.mem_singleton.1 hq]
      exact Nat.lt_succ_self _
  pend_kind := by
    intro q hq t ht e
    rcases mem_snoc ht with ht | rfl
    · rcases List.mem_append.1 hq with hq | hq
      · exact h.pend_kind q hq t ht e
      · rw [List.mem_singleton.1 hq] at e
        exact absurd (h.tid_lt t ht) (by simp only at e; omega)
    · rfl
  pend_nodup := by
    rw [List.map_append, List.nodup_append]
    refine ⟨h.pend_nodup, by simp, ?_⟩
    intro a ha hb
    rcases List.mem_map.1 ha with ⟨q, hq, rfl⟩
    have := h.pend_lt q hq
    simp at hb
    omega

/-- Disarming the recorded stall timer keeps the invariant. -/
theorem InvCore.clearStall {ts : List Timer} {n : Nat} {b : Bool} {bi : Option Nat}
    {p : List PendingWrite} {x : Nat} (h : InvCore ts n b bi (some x) p) :
    InvCore (ts.filter fun t => t.id != x) n b bi (some x) p := by
  apply h.filterTimers x
  intro _ t ht hc e
  have := h.stallId_kind t ht (by rw [e])
  rw [hc] at this
  cases this

theorem clearTimeout_nextTimerID (w : World) (id : Option Nat) :
    (clearTimeout w id).nextTimerID = w.nextTimerID := by
  cases id <;> rfl

theorem clearTimeout_busy (w : World) (id : Option Nat) :
    (clearTimeout w id)._busy = w._busy := by
  cases id <;> rfl

theorem clearTimeout_busyTimeoutID (w : World) (id : Option Nat) :
    (clearTimeout w id)._busyTimeoutID = w._busyTimeoutID := by
  cases id <;> rfl

theorem clearTimeout_timeoutID (w : World) (id : Option Nat) :
    (clearTimeout w id)._timeoutID = w._timeoutID := by
  cases id <;> rfl

theorem clearTimeout_pending (w : World) (id : Option Nat) :
    (clearTimeout w id).pending = w.pending := by
  cases id <;> rfl

theorem clearTimeout_ble (w : World) (id : Option Nat) :
    (clearTimeout w id)._ble = w._ble := by
  cases id <;> rfl

theorem clearTimeout_writes (w : World) (id : Option Nat) :
    (clearTimeout w id).writes = w.writes := by
  cases id <;> rfl

theorem clearTimeout_disconnectErrors (w : World) (id : Option Nat) :
    (clearTimeout w id).disconnectErrors = w.disconnectErrors := by
  cases id <;> rfl

theorem mem_clearTimeout (w : World) (id : Option Nat) (t : Timer)
    (h : t ∈ (clearTimeout w id).timers) : t ∈ w.timers := by
  cases id with
  | none => exact h
  | some x => exact (mem_filter_id h).1

theorem inv_clearStall (w : World) (h : Inv w) : Inv (clearTimeout w w._timeoutID) := by
  cases hid : w._timeoutID with
  | none => exact h
  | some x =>
    have h1 : InvCore w.timers w.nextTimerID w._busy w._busyTimeoutID (some x) w.pending := by
      have h0 := h
      unfold Inv at h0
      rw [hid] at h0
      exact h0
    have h2 := h1.clearStall
    show InvCore (w.timers.filter fun t => t.id != x) w.nextTimerID w._busy w._busyTimeoutID
      w._timeoutID w.pending
    rw [hid]
    exact h2

theorem inv_clearStall_core (w : World) (h : Inv w) :
    InvCore (clearTimeout w w._timeoutID).timers w.nextTimerID w._busy w._busyTimeoutID
      w._timeoutID w.pending := by
  have h2 := inv_clearStall w h
  cases hid : w._timeoutID with
  | none =>
    rw [hid] at h2
    have h3 : InvCore w.timers w.nextTimerID w._busy w._busyTimeoutID w._timeoutID w.pending := h2
    rw [hid] at h3
    exact h3
  | some x =>
    rw [hid] at h2
    have h3 : InvCore (w.timers.filter fun t => t.id != x) w.nextTimerID w._busy
      w._busyTimeoutID w._timeoutID w.pending := h2
    rw [hid] at h3
    exact h3

theorem inv_reset (w : World) (h : Inv w) : Inv (reset w) := by
  unfold reset
  split
  · show InvCore (clearTimeout w w._timeoutID).timers (clearTimeout w w._timeoutID).nextTimerID
      (clearTimeout w w._timeoutID)._busy (clearTimeout w w._timeoutID)._busyTimeoutID none
      (clearTimeout w w._timeoutID).pending
    rw [clearTimeout_nextTimerID, clearTimeout_busy, clearTimeout_busyTimeoutID,
      clearTimeout_pending]
    exact (inv_clearStall_core w h).stallNone
  · exact h

theorem inv_onConnect (w w' : World) (h : Inv w) (e : _onConnect w = .ok w') : Inv w' := by
  unfold _onConnect at e
  split at e
  · cases e
  · cases e
    exact InvCore.armStall h

theorem inv_onMessage (w : World) (base64 : String) (h : Inv w) :
    Inv (settle w (_onMessage w base64)) := by
  cases hd : base64ToUint8Array base64 with
  | error e =>
    rw [onMessage_error w base64 e hd]
    exact h
  | ok data =>
    rw [onMessage_ok w base64 data hd]
    exact (inv_clearStall_core w h).armStall

theorem inv_send (w : World) (command : Nat) (message : List Nat) (h : Inv w) :
    Inv (settle w (send w command message)) := by
  by_cases hd : isConnected w = false ∨ w._busy = true
  · rw [send_returns_unchanged w command message hd]
    exact h
  · have h1 : isConnected w = true := by
      cases hc : isConnected w
      · exact absurd (Or.inl hc) hd
      · rfl
    have h2 : w._busy = false := by
      cases hb : w._busy
      · rfl
      · exact absurd (Or.inr hb) hd
    unfold isConnected at h1
    cases hble : w._ble with
    | none => simp [hble] at h1
    | some ble =>
      have hconn : ble.connected = true := by simpa [hble] using h1
      rw [send_accepted w command message ble hble hconn h2]
      unfold Inv at h
      rw [h2] at h
      exact h.armBusy _ _

theorem inv_writeResolved (w : World) (h : Inv w) : Inv (writeResolved w) := by
  unfold Inv at h
  unfold writeResolved
  cases hid : w._busyTimeoutID with
  | none =>
    rw [hid] at h
    show InvCore w.timers w.nextTimerID false none w._timeoutID w.pending
    apply h.setIdle
    intro t ht hc
    have := (h.armed_busy t ht hc).2.1
    cases this
  | some x =>
    rw [hid] at h
    show InvCore (w.timers.filter fun t => t.id != x) w.nextTimerID false (some x)
      w._timeoutID w.pending
    apply h.unbusy x
    intro t ht hc
    have := Option.some.inj (h.armed_busy t ht hc).2.1
    exact this.symm

theorem find_timer {ts : List Timer} {id : Nat} {t : Timer}
    (h : ts.find? (fun t => t.id == id) = some t) : t ∈ ts ∧ t.id = id := by
  refine ⟨List.mem_of_find?_eq_some h, ?_⟩
  simpa using List.find?_some h

theorem inv_timerExpired (w : World) (id : Nat) (h : Inv w) :
    Inv (step w (.timerExpired id)) := by
  simp only [step]
  split
  · exact h
  · rename_i t hf
    obtain ⟨ht, hid⟩ := find_timer hf
    unfold Inv at h
    cases hc : t.callback with
    | clearBusy =>
      show InvCore (w.timers.filter fun t => t.id != id) w.nextTimerID false w._busyTimeoutID
        w._timeoutID w.pending
      apply h.unbusy id
      intro u hu huc
      have e1 := (h.armed_busy t ht hc).2.1
      have e2 := (h.armed_busy u hu huc).2.1
      rw [e1] at e2
      have e3 := Option.some.inj e2
      omega
    | dataStopped =>
      have h2 : InvCore (w.timers.filter fun t => t.id != id) w.nextTimerID w._busy
          w._busyTimeoutID w._timeoutID w.pending := by
        apply h.filterTimers id
        intro _ u hu huc e
        have := h.tid_inj u hu t ht (by rw [e, hid])
        rw [this, hc] at huc
        cases huc
      simp only [runCallback]
      split
      · exact h2
      · exact h2

/-- Every step keeps the session invariant. -/
theorem inv_step (w : World) (e : Event) (h : Inv w) : Inv (step w e) := by
  cases e with
  | scan =>
    simp only [step, scan]
    split <;> exact h
  | connectCallback =>
    simp only [step]
    split
    · exact h
    · rename_i ble hble
      cases hr : _onConnect { w with _ble := some { ble with connected := true } } with
      | error e => exact h
      | ok w' =>
        exact inv_onConnect { w with _ble := some { ble with connected := true } } w' h hr
  | message base64 => exact inv_onMessage w base64 h
  | send command message => exact inv_send w command message h
  | writeDone seq =>
    simp only [step]
    split
    · apply inv_writeResolved
      exact InvCore.filterPending h _
    · exact h
  | timerExpired id => exact inv_timerExpired w id h
  | reset => exact inv_reset w h
  | disconnect =>
    simp only [step, disconnect]
    split
    · exact inv_reset _ h
    · exact inv_reset _ h
  | linkLost =>
    simp only [step]
    split <;> exact h

theorem inv_run (events : List Event) : ∀ w : World, Inv w → Inv (run w events) := by
  induction events with
  | nil => exact fun w h => h
  | cons e events ih => exact fun w h => ih (step w e) (inv_step w e h)

/-- Every state reachable from a freshly constructed session satisfies the invariant. -/
theorem inv_reachable (events : List Event) : Inv (run constructor events) :=
  inv_run events constructor InvCore.init

/-! ## Busy flag and busy-safety timer: claims -/

theorem reset_busyTimeoutID (w : World) : (reset w)._busyTimeoutID = w._busyTimeoutID := by
  unfold reset
  split
  · exact clearTimeout_busyTimeoutID w w._timeoutID
  · rfl

/-- While the flag is set no event changes the recorded busy timer id. -/
theorem step_busyTimeoutID (w : World) (e : Event) (hb : w._busy = true) :
    (step w e)._busyTimeoutID = w._busyTimeoutID := by
  cases e with
  | scan =>
    simp only [step, scan]
    split <;> rfl
  | connectCallback =>
    simp only [step]
    split
    · rfl
    · simp [_onConnect, settle, setTimeout]
  | message base64 =>
    show (settle w (_onMessage w base64))._busyTimeoutID = _
    cases hd : base64ToUint8Array base64 with
    | error e => rw [onMessage_error w base64 e hd]
    | ok data =>
      rw [onMessage_ok w base64 data hd]
      rfl
  | send command message =>
    show (settle w (send w command message))._busyTimeoutID = _
    rw [send_returns_unchanged w command message (Or.inr hb)]
    rfl
  | writeDone seq =>
    simp only [step]
    split
    · simp [writeResolved, clearTimeout_busyTimeoutID]
    · rfl
  | timerExpired id =>
    simp only [step]
    split
    · rfl
    · rename_i t _
      cases hc : t.callback
      · simp [runCallback]
      · simp only [runCallback]
        split <;> simp [handleDisconnectError]
  | reset => exact reset_busyTimeoutID w
  | disconnect =>
    simp only [step, disconnect]
    split <;> exact reset_busyTimeoutID _
  | linkLost =>
    simp only [step]
    split <;> rfl

theorem expire_busy_timer (w : World) (h : Inv w) (t : Timer) (ht : t ∈ w.timers)
    (hc : t.callback = .clearBusy) : (step w (.timerExpired t.id))._busy = false := by
  simp only [step]
  split
  · rename_i hf
    have := List.find?_eq_none.1 hf t ht
    simp at this
  · rename_i u hf
    obtain ⟨hu, hid⟩ := find_timer hf
    have e := h.tid_inj u hu t ht hid
    rw [e, hc]
    rfl

/-- C5: in every reachable state where the busy flag is set, a busy-safety
timer of 5000 ms is armed and it is the one recorded in the session; the expiry
of any armed busy-safety timer leaves the flag clear; an accepted send sets the
flag and arms and records a fresh timer; and while the flag stays set no event
changes the recorded timer. So the flag cannot stay set past the expiry of the
timer armed by the send that set it, whether or not the write ever completes. -/
theorem busy_safety (events : List Event) :
    ((run constructor events)._busy = true →
      ∃ t ∈ (run constructor events).timers, t.callback = .clearBusy ∧ t.delay = 5000 ∧
        (run constructor events)._busyTimeoutID = some t.id) ∧
    (∀ t ∈ (run constructor events).timers, t.callback = .clearBusy →
      (step (run constructor events) (.timerExpired t.id))._busy = false) ∧
    (∀ command message, isConnected (run constructor events) = true →
      (run constructor events)._busy = false →
      (step (run constructor events) (.send command message))._busy = true ∧
      (step (run constructor events) (.send command message))._busyTimeoutID =
        some (run constructor events).nextTimerID ∧
      isArmed (run constructor events) (run constructor events).nextTimerID = false ∧
      (⟨(run constructor events).nextTimerID, .clearBusy, 5000⟩ : Timer) ∈
        (step (run constructor events) (.send command message)).timers) ∧
    (∀ e, (run constructor events)._busy = true →
      (step (run constructor events) e)._busyTimeoutID =
        (run constructor events)._busyTimeoutID) := by
  have h := inv_reachable events
  generalize run constructor events = w at h
  refine ⟨?_, ?_, ?_, ?_⟩
  · intro hb
    obtain ⟨t, ht, hc, hi⟩ := h.busy_armed hb
    exact ⟨t, ht, hc, (h.armed_busy t ht hc).2.2, hi⟩
  · exact fun t ht hc => expire_busy_timer w h t ht hc
  · intro command message hl hidle
    unfold isConnected at hl
    cases hble : w._ble with
    | none => simp [hble] at hl
    | some ble =>
      have hconn : ble.connected = true := by simpa [hble] using hl
      have e : step w (.send command message) = _ :=
        congrArg (settle w) (send_accepted w command message ble hble hconn hidle)
      rw [e]
      refine ⟨rfl, rfl, ?_, by simp [settle]⟩
      unfold isArmed
      rw [List.any_eq_false]
      intro t ht
      have := h.tid_lt t ht
      simp
      omega
  · exact fun e hb => step_busyTimeoutID w e hb

/-- C5, witness: after a send on a linked session the flag is set and the timer
armed by that send (id 2, the connect having armed 1) is armed and recorded. -/
theorem busy_safety_witness :
    (run constructor [.scan, .connectCallback, .send 0x81 [1]])._busy = true ∧
    (run constructor [.scan, .connectCallback, .send 0x81 [1]])._busyTimeoutID = some 2 ∧
    (step (run constructor [.scan, .connectCallback, .send 0x81 [1]]) (.timerExpired 2))._busy
      = false ∧
    ∃ t ∈ (run constructor [.scan, .connectCallback, .send 0x81 [1]]).timers,
      t.callback = .clearBusy ∧ t.delay = 5000 ∧
      (run constructor [.scan, .connectCallback, .send 0x81 [1]])._busyTimeoutID = some t.id :=
  ⟨by decide, by decide, by decide,
    (busy_safety [.scan, .connectCallback, .send 0x81 [1]]).1 (by decide)⟩

/-! ## Timers are armed under fresh ids only -/

theorem reset_timers_sub (w : World) (t : Timer) (h : t ∈ (reset w).timers) : t ∈ w.timers := by
  unfold reset at h
  split at h
  · exact mem_clearTimeout w w._timeoutID t h
  · exact h

theorem reset_nextTimerID (w : World) : (reset w).nextTimerID = w.nextTimerID := by
  unfold reset
  split
  · exact clearTimeout_nextTimerID w w._timeoutID
  · rfl

theorem writeResolved_timers_sub (w : World) (t : Timer) (h : t ∈ (writeResolved w).timers) :
    t ∈ w.timers := by
  unfold writeResolved at h
  have h' := mem_clearTimeout _ _ t h
  exact h'

theorem send_cases (w : World) (command : Nat) (message : List Nat) :
    settle w (send w command message) = w ∨
    ∃ ble, w._ble = some ble ∧ ble.connected = true ∧ w._busy = false ∧
      send w command message = .ok
        { w with
          _busy := true
          _busyTimeoutID := some w.nextTimerID
          timers := w.timers ++ [⟨w.nextTimerID, .clearBusy, 5000⟩]
          nextTimerID := w.nextTimerID + 1
          writes := w.writes ++ [⟨BLEUUID_service, BLEUUID_txChar,
            uint8ArrayToBase64 (sendOutput command message), "base64", true⟩]
          pending := w.pending ++ [⟨w.writes.length, ⟨BLEUUID_service, BLEUUID_txChar,
            uint8ArrayToBase64 (sendOutput command message), "base64", true⟩,
            w.nextTimerID⟩] } := by
  by_cases hd : isConnected w = false ∨ w._busy = true
  · left
    rw [send_returns_unchanged w command message hd]
    rfl
  · right
    have h1 : isConnected w = true := by
      cases hc : isConnected w
      · exact absurd (Or.inl hc) hd
      · rfl
    have h2 : w._busy = false := by
      cases hb : w._busy
      · rfl
      · exact absurd (Or.inr hb) hd
    unfold isConnected at h1
    have hex : ∃ ble, w._ble = some ble := by
      cases hble : w._ble with
      | none => simp [hble] at h1
      | some ble => exact ⟨ble, rfl⟩
    obtain ⟨ble, hble⟩ := hex
    have hconn : ble.connected = true := by simpa [hble] using h1
    exact ⟨ble, hble, hconn, h2, send_accepted w command message ble hble hconn h2⟩

/-- A step arms at most one timer, under the next id, and never lowers the next id. -/
theorem step_timers (w : World) (e : Event) :
    w.nextTimerID ≤ (step w e).nextTimerID ∧
    ∀ t ∈ (step w e).timers, t ∈ w.timers ∨ t.id = w.nextTimerID := by
  cases e with
  | scan =>
    simp only [step, scan]
    split <;> exact ⟨Nat.le_refl _, fun t ht => Or.inl ht⟩
  | connectCallback =>
    simp only [step]
    split
    · exact ⟨Nat.le_refl _, fun t ht => Or.inl ht⟩
    · refine ⟨Nat.le_succ _, fun t ht => ?_⟩
      rcases mem_snoc ht with ht | rfl
      · exact Or.inl ht
      · exact Or.inr rfl
  | message base64 =>
    show _ ≤ (settle w (_onMessage w base64)).nextTimerID ∧
      ∀ t ∈ (settle w (_onMessage w base64)).timers, _
    cases hd : base64ToUint8Array base64 with
    | error e =>
      rw [onMessage_error w base64 e hd]
      exact ⟨Nat.le_refl _, fun t ht => Or.inl ht⟩
    | ok data =>
      rw [onMessage_ok w base64 data hd]
      refine ⟨Nat.le_succ _, fun t ht => ?_⟩
      rcases mem_snoc ht with ht | rfl
      · exact Or.inl (mem_clearTimeout w _ t ht)
      · exact Or.inr rfl
  | send command message =>
    show _ ≤ (settle w (send w command message)).nextTimerID ∧
      ∀ t ∈ (settle w (send w command message)).timers, _
    rcases send_cases w command message with h | ⟨ble, _, _, _, h⟩
    · rw [h]
      exact ⟨Nat.le_refl _, fun t ht => Or.inl ht⟩
    · rw [h]
      refine ⟨Nat.le_succ _, fun t ht => ?_⟩
      rcases mem_snoc ht with ht | rfl
      · exact Or.inl ht
      · exact Or.inr rfl
  | writeDone seq =>
    simp only [step]
    split
    · refine ⟨?_, fun t ht => Or.inl ?_⟩
      · simp [writeResolved, clearTimeout_nextTimerID]
      · have h' := writeResolved_timers_sub _ t ht
        exact h'
    · exact ⟨Nat.le_refl _, fun t ht => Or.inl ht⟩
  | timerExpired id =>
    simp only [step]
    split
    · exact ⟨Nat.le_refl _, fun t ht => Or.inl ht⟩
    · rename_i u _
      cases hc : u.callback
      · exact ⟨Nat.le_refl _, fun t ht => Or.inl (mem_filter_id ht).1⟩
      · simp only [runCallback]
        split
        · exact ⟨Nat.le_refl _, fun t ht => Or.inl (mem_filter_id ht).1⟩
        · exact ⟨Nat.le_refl _, fun t ht => Or.inl (mem_filter_id ht).1⟩
  | reset =>
    exact ⟨Nat.le_of_eq (reset_nextTimerID w).symm, fun t ht => Or.inl (reset_timers_sub w t ht)⟩
  | disconnect =>
    simp only [step, disconnect]
    split
    · refine ⟨?_, fun t ht => ?_⟩
      · rw [reset_nextTimerID]
      · have h' := reset_timers_sub _ t ht
        exact Or.inl h'
    · refine ⟨?_, fun t ht => ?_⟩
      · rw [reset_nextTimerID]
      · have h' := reset_timers_sub _ t ht
        exact Or.inl h'
  | linkLost =>
    simp only [step]
    split <;> exact ⟨Nat.le_refl _, fun t ht => Or.inl ht⟩

/-- A timer id that was handed out and is no longer armed is never armed again. -/
theorem never_armed_again (x : Nat) (events : List Event) :
    ∀ w : World, x < w.nextTimerID → (∀ t ∈ w.timers, t.id ≠ x) →
      isArmed (run w events) x = false := by
  induction events with
  | nil =>
    intro w _ hn
    unfold isArmed
    rw [List.any_eq_false]
    intro t ht
    simpa using hn t ht
  | cons e events ih =>
    intro w hx hn
    rw [run_cons]
    obtain ⟨h1, h2⟩ := step_timers w e
    apply ih
    · omega
    · intro t ht
      rcases h2 t ht with h | h
      · exact hn t h
      · omega

theorem length_le_one_of_nodup_const (l : List Nat) (i : Option Nat) (hn : l.Nodup)
    (h : ∀ x ∈ l, i = some x) : l.length ≤ 1 := by
  match l, hn, h with
  | [], _, _ => simp
  | [_], _, _ => simp
  | a :: b :: rest, hn, h =>
    have ha := h a (by simp)
    have hb := h b (by simp)
    rw [ha] at hb
    have e : a = b := Option.some.inj hb
    subst e
    simp at hn

theorem isArmed_iff (w : World) (x : Nat) : isArmed w x = true ↔ ∃ t ∈ w.timers, t.id = x := by
  simp [isArmed]

/-! ## Writes in flight: claims -/

theorem armed_pending_recorded (w : World) (h : Inv w) (p : PendingWrite) (hp : p ∈ w.pending)
    (ha : isArmed w p.busyTimer = true) :
    w._busy = true ∧ w._busyTimeoutID = some p.busyTimer := by
  obtain ⟨t, ht, hid⟩ := (isArmed_iff w p.busyTimer).1 ha
  have hc := h.pend_kind p hp t ht hid
  have hb := h.armed_busy t ht hc
  exact ⟨hb.1, by rw [← hid]; exact hb.2.1⟩

set_option maxRecDepth 100000 in
/-- C3, counterexample: a send, three inbound frames that keep the link alive,
the expiry of the send's busy-safety timer (id 2) and a second send leave two
writes handed to the transport and not completed. -/
theorem two_writes_in_flight :
    (run constructor [.scan, .connectCallback, .send 0x81 [1], .message "AA==", .message "AA==",
      .message "AA==", .timerExpired 2, .send 0x81 [2]]).pending.length = 2 ∧
    (run constructor [.scan, .connectCallback, .send 0x81 [1], .message "AA==", .message "AA==",
      .message "AA==", .timerExpired 2, .send 0x81 [2]]).pending.map (fun p => p.seq) = [0, 1] ∧
    (run constructor [.scan, .connectCallback, .send 0x81 [1], .message "AA==", .message "AA==",
      .message "AA==", .timerExpired 2, .send 0x81 [2]]).writes.length = 2 :=
  ⟨by decide, by decide, by decide⟩

/-- In every reachable state at most one write that is handed to the transport
and not completed has its busy-safety timer still armed; while the busy flag is
clear none has; and a send while the flag is set hands the transport no write. -/
theorem armed_pending_le_one (events : List Event) :
    ((run constructor events).pending.filter
      fun p => isArmed (run constructor events) p.busyTimer).length ≤ 1 ∧
    ((run constructor events)._busy = false →
      ∀ p ∈ (run constructor events).pending,
        isArmed (run constructor events) p.busyTimer = false) ∧
    (∀ command message, (run constructor events)._busy = true →
      (step (run constructor events) (.send command message)).writes =
        (run constructor events).writes ∧
      (step (run constructor events) (.send command message)).pending =
        (run constructor events).pending) := by
  have h := inv_reachable events
  generalize run constructor events = w at h
  refine ⟨?_, ?_, ?_⟩
  · have hn : ((w.pending.filter fun p => isArmed w p.busyTimer).map
        fun p => p.busyTimer).Nodup :=
      (h.pend_nodup).sublist ((List.filter_sublist w.pending).map _)
    have hall : ∀ x ∈ (w.pending.filter fun p => isArmed w p.busyTimer).map
        (fun p => p.busyTimer), w._busyTimeoutID = some x := by
      intro x hx
      rcases List.mem_map.1 hx with ⟨p, hp, rfl⟩
      rcases List.mem_filter.1 hp with ⟨hp1, hp2⟩
      exact (armed_pending_recorded w h p hp1 hp2).2
    have := length_le_one_of_nodup_const _ _ hn hall
    rwa [List.length_map] at this
  · intro hb p hp
    cases ha : isArmed w p.busyTimer
    · rfl
    · have := (armed_pending_recorded w h p hp ha).1
      rw [hb] at this
      cases this
  · intro command message hb
    have e : step w (.send command message) = w :=
      congrArg (settle w) (send_returns_unchanged w command message (Or.inr hb))
    rw [e]
    exact ⟨rfl, rfl⟩

theorem reset_pending (w : World) : (reset w).pending = w.pending := by
  unfold reset
  split
  · exact clearTimeout_pending w w._timeoutID
  · rfl

theorem reset_busy (w : World) : (reset w)._busy = w._busy := by
  unfold reset
  split
  · exact clearTimeout_busy w w._timeoutID
  · rfl

theorem filter_seq_eq_nil (pending : List PendingWrite) (seq : Nat)
    (hlen : pending.length ≤ 1) (hany : pending.any (fun p => p.seq == seq) = true) :
    pending.filter (fun p => p.seq != seq) = [] := by
  match pending, hlen, hany with
  | [], _, hany => simp at hany
  | [p], _, hany =>
    have e : p.seq = seq := by simpa using hany
    simp [e]
  | _ :: _ :: _, hlen, _ =>
    simp at hlen

/-- A step that is not the expiry of a busy-safety timer keeps at most one
write in flight, and none while the busy flag is clear. -/
theorem step_pending_le_one (w : World) (e : Event) (hq : expiresBusy w e = false)
    (h : (w._busy = false → w.pending = []) ∧ w.pending.length ≤ 1) :
    ((step w e)._busy = false → (step w e).pending = []) ∧ (step w e).pending.length ≤ 1 := by
  cases e with
  | scan =>
    simp only [step, scan]
    split <;> exact h
  | connectCallback =>
    simp only [step]
    split
    · exact h
    · exact h
  | message base64 =>
    show ((settle w (_onMessage w base64))._busy = false →
      (settle w (_onMessage w base64)).pending = []) ∧
      (settle w (_onMessage w base64)).pending.length ≤ 1
    cases hd : base64ToUint8Array base64 with
    | error e =>
      rw [onMessage_error w base64 e hd]
      exact h
    | ok data =>
      rw [onMessage_ok w base64 data hd]
      exact h
  | send command message =>
    show ((settle w (send w command message))._busy = false →
      (settle w (send w command message)).pending = []) ∧
      (settle w (send w command message)).pending.length ≤ 1
    rcases send_cases w command message with hs | ⟨ble, _, _, hidle, hs⟩
    · rw [hs]
      exact h
    · rw [hs]
      refine ⟨fun hb => (by cases hb), ?_⟩
      show (w.pending ++ [_]).length ≤ 1
      rw [h.1 hidle]
      exact Nat.le_refl _
  | writeDone seq =>
    simp only [step]
    split
    · rename_i hany
      have e := filter_seq_eq_nil w.pending seq h.2 hany
      have hp : (writeResolved
          { w with pending := w.pending.filter fun p => p.seq != seq }).pending = [] := by
        unfold writeResolved
        rw [clearTimeout_pending]
        exact e
      rw [hp]
      exact ⟨fun _ => rfl, Nat.zero_le _⟩
    · exact h
  | timerExpired id =>
    simp only [expiresBusy] at hq
    simp only [step]
    split
    · exact h
    · rename_i t hf
      rw [hf] at hq
      cases hc : t.callback with
      | clearBusy => simp [hc] at hq
      | dataStopped =>
        simp only [runCallback]
        split
        · exact h
        · exact h
  | reset =>
    show ((reset w)._busy = false → (reset w).pending = []) ∧ (reset w).pending.length ≤ 1
    rw [reset_pending, reset_busy]
    exact h
  | disconnect =>
    simp only [step, disconnect]
    split
    · rw [reset_pending, reset_busy]
      exact h
    · rw [reset_pending, reset_busy]
      exact h
  | linkLost =>
    simp only [step]
    split <;> exact h

theorem run_pending_le_one (events : List Event) :
    ∀ w : World, noBusyExpiry w events = true →
      ((w._busy = false → w.pending = []) ∧ w.pending.length ≤ 1) →
      (((run w events)._busy = false → (run w events).pending = []) ∧
        (run w events).pending.length ≤ 1) := by
  induction events with
  | nil => exact fun w _ h => h
  | cons e events ih =>
    intro w hq h
    simp only [noBusyExpiry, Bool.and_eq_true, Bool.not_eq_true'] at hq
    rw [run_cons]
    exact ih _ hq.2 (step_pending_le_one w e hq.1 h)

/-- C3, amended: session invariant over the step relation: in every session
state reached from a constructed session by a run in which no busy-safety timer
has expired, at most one outbound transport write has been issued and not yet
completed, and none while the busy flag is clear. -/
theorem one_write_in_flight (events : List Event)
    (hq : noBusyExpiry constructor events = true) :
    (run constructor events).pending.length ≤ 1 ∧
    ((run constructor events)._busy = false → (run constructor events).pending = []) := by
  have h := run_pending_le_one events constructor hq
    ⟨fun _ => rfl, Nat.zero_le _⟩
  exact ⟨h.2, h.1⟩

/-- C3, witness: a send, its completion, a stall-timer expiry and a second send:
no busy-safety timer expires and one write is in flight. -/
theorem one_write_in_flight_witness :
    noBusyExpiry constructor [.scan, .connectCallback, .send 0x81 [1], .message "AA==",
      .writeDone 0, .send 0x81 [2], .send 0x81 [3], .timerExpired 3] = true ∧
    (run constructor [.scan, .connectCallback, .send 0x81 [1], .message "AA==",
      .writeDone 0, .send 0x81 [2], .send 0x81 [3], .timerExpired 3]).writes.length = 2 ∧
    (run constructor [.scan, .connectCallback, .send 0x81 [1], .message "AA==",
      .writeDone 0, .send 0x81 [2], .send 0x81 [3], .timerExpired 3]).pending.length = 1 ∧
    ((run constructor [.scan, .connectCallback, .send 0x81 [1], .message "AA==",
      .writeDone 0, .send 0x81 [2], .send 0x81 [3], .timerExpired 3]).pending.length ≤ 1 ∧
    ((run constructor [.scan, .connectCallback, .send 0x81 [1], .message "AA==",
      .writeDone 0, .send 0x81 [2], .send 0x81 [3], .timerExpired 3])._busy = false →
      (run constructor [.scan, .connectCallback, .send 0x81 [1], .message "AA==",
        .writeDone 0, .send 0x81 [2], .send 0x81 [3], .timerExpired 3]).pending = [])) :=
  ⟨by decide, by decide, by decide,
    one_write_in_flight [.scan, .connectCallback, .send 0x81 [1], .message "AA==",
      .writeDone 0, .send 0x81 [2], .send 0x81 [3], .timerExpired 3] (by decide)⟩

theorem clearTimeout_eq_self (w : World) (id : Option Nat)
    (h : ∀ t ∈ w.timers, id ≠ some t.id) : clearTimeout w id = w := by
  cases id with
  | none => rfl
  | some x =>
    have e : (w.timers.filter fun t => t.id != x) = w.timers := by
      rw [List.filter_eq_self]
      intro t ht
      have := h t ht
      simp only [ne_eq, Option.some.injEq] at this
      simpa using fun e => this e.symm
    show { w with timers := w.timers.filter fun t => t.id != x } = w
    rw [e]

/-- The completion of a write on an idle session changes nothing but the set of
pending writes. -/
theorem writeDone_idle (w : World) (h : Inv w) (hb : w._busy = false) (seq : Nat) :
    step w (.writeDone seq) = { w with pending := w.pending.filter fun p => p.seq != seq } := by
  have hno : ∀ t ∈ w.timers, w._busyTimeoutID ≠ some t.id := by
    intro t ht e
    have hc := h.busyId_kind t ht e
    have := (h.armed_busy t ht hc).1
    rw [hb] at this
    cases this
  simp only [step]
  split
  · unfold writeResolved
    have e := clearTimeout_eq_self
      { _ble := w._ble, GPIOPins := w.GPIOPins, _timeoutID := w._timeoutID, _busy := false,
        _busyTimeoutID := w._busyTimeoutID, timers := w.timers, nextTimerID := w.nextTimerID,
        pending := w.pending.filter fun p => p.seq != seq, writes := w.writes,
        disconnectErrors := w.disconnectErrors } w._busyTimeoutID hno
    refine Eq.trans e ?_
    rw [hb]
  · rename_i hany
    have hany' : ∀ x ∈ w.pending, ¬ x.seq = seq := by simpa using hany
    have e : (w.pending.filter fun p => p.seq != seq) = w.pending := by
      rw [List.filter_eq_self]
      intro p hp
      simpa using hany' p hp
    rw [e]

/-- Only a send sets the busy flag. -/
theorem step_busy_false (w : World) (e : Event) (he : e.isSend = false)
    (hb : w._busy = false) : (step w e)._busy = false := by
  cases e with
  | scan =>
    simp only [step, scan]
    split <;> exact hb
  | connectCallback =>
    simp only [step]
    split
    · exact hb
    · exact hb
  | message base64 =>
    show (settle w (_onMessage w base64))._busy = false
    cases hd : base64ToUint8Array base64 with
    | error e => rw [onMessage_error w base64 e hd, hb]
    | ok data =>
      rw [onMessage_ok w base64 data hd]
      exact hb
  | send command message => cases he
  | writeDone seq =>
    simp only [step]
    split
    · simp [writeResolved, clearTimeout_busy]
    · exact hb
  | timerExpired id =>
    simp only [step]
    split
    · exact hb
    · rename_i t _
      cases hc : t.callback
      · rfl
      · simp only [runCallback]
        split
        · exact hb
        · exact hb
  | reset =>
    simp only [step, reset]
    split
    · show (clearTimeout w w._timeoutID)._busy = false
      rw [clearTimeout_busy, hb]
    · exact hb
  | disconnect =>
    simp only [step, disconnect, reset]
    split <;> split
    all_goals first
      | exact hb
      | (show (clearTimeout _ _)._busy = false; rw [clearTimeout_busy]; exact hb)
  | linkLost =>
    simp only [step]
    split <;> exact hb

theorem run_busy_false (events : List Event) :
    ∀ w : World, (∀ e ∈ events, e.isSend = false) → w._busy = false →
      (run w events)._busy = false := by
  induction events with
  | nil => exact fun w _ hb => hb
  | cons e events ih =>
    intro w he hb
    rw [run_cons]
    exact ih _ (fun x hx => he x (List.mem_cons_of_mem _ hx))
      (step_busy_false w e (he e (List.mem_cons_self _ _)) hb)

theorem writeDone_busy (w : World) (seq : Nat) : (step w (.writeDone seq))._busy = false ∨
    step w (.writeDone seq) = w := by
  simp only [step]
  split
  · left
    simp [writeResolved, clearTimeout_busy]
  · right
    rfl

set_option maxRecDepth 100000 in
/-- C6, counterexample: the first send's busy-safety timer (id 2) fires, a
second send is accepted (timer id 6), and then the first write completes: the
late completion clears the busy flag and disarms the second send's timer. -/
theorem late_completion_changes_session :
    (run constructor [.scan, .connectCallback, .send 0x81 [1], .message "AA==", .message "AA==",
      .message "AA==", .timerExpired 2, .send 0x81 [2]])._busy = true ∧
    isArmed (run constructor [.scan, .connectCallback, .send 0x81 [1], .message "AA==",
      .message "AA==", .message "AA==", .timerExpired 2, .send 0x81 [2]]) 6 = true ∧
    (run constructor [.scan, .connectCallback, .send 0x81 [1], .message "AA==", .message "AA==",
      .message "AA==", .timerExpired 2, .send 0x81 [2], .writeDone 0])._busy = false ∧
    isArmed (run constructor [.scan, .connectCallback, .send 0x81 [1], .message "AA==",
      .message "AA==", .message "AA==", .timerExpired 2, .send 0x81 [2], .writeDone 0]) 6 = false :=
  ⟨by decide, by decide, by decide, by decide⟩

/-- C6, amended: for every send that was not dropped, (1) once its write has
completed its busy-safety timer is never armed again, so it never fires after
the completion; (2) a write completion that arrives while the busy flag is
clear changes nothing in the session but the set of pending writes; (3) in
particular, when the busy-safety timeout of the send fires first and no further
send is issued before the write completes, the late completion leaves the busy
flag, the armed timers and the recorded timer ids unchanged. -/
theorem completion_second (events later between : List Event) (command : Nat)
    (message : List Nat) :
    (∀ p ∈ (run constructor events).pending,
      isArmed (run (step (run constructor events) (.writeDone p.seq)) later) p.busyTimer
        = false) ∧
    (∀ seq, (run constructor events)._busy = false →
      step (run constructor events) (.writeDone seq) =
        { run constructor events with
          pending := (run constructor events).pending.filter fun p => p.seq != seq }) ∧
    (isConnected (run constructor events) = true → (run constructor events)._busy = false →
      (∀ e ∈ between, e.isSend = false) →
      step (run (run constructor events)
          (.send command message :: .timerExpired (run constructor events).nextTimerID :: between))
          (.writeDone (run constructor events).writes.length) =
        { run (run constructor events)
            (.send command message :: .timerExpired (run constructor events).nextTimerID
              :: between) with
          pending := (run (run constructor events)
            (.send command message :: .timerExpired (run constructor events).nextTimerID
              :: between)).pending.filter
            fun p => p.seq != (run constructor events).writes.length }) := by
  have hreach : ∀ more, Inv (run (run constructor events) more) := by
    intro more
    rw [← run_append]
    exact inv_reachable _
  have h := inv_reachable events
  generalize run constructor events = w at h hreach
  refine ⟨?_, ?_, ?_⟩
  · intro p hp
    have h' := inv_step w (.writeDone p.seq) h
    obtain ⟨hmono, hsub⟩ := step_timers w (.writeDone p.seq)
    have hlt := h.pend_lt p hp
    have hbusy : (step w (.writeDone p.seq))._busy = false := by
      simp only [step]
      have hany : w.pending.any (fun q => q.seq == p.seq) = true :=
        List.any_eq_true.2 ⟨p, hp, by simp⟩
      rw [if_pos hany]
      simp [writeResolved, clearTimeout_busy]
    apply never_armed_again p.busyTimer later
    · omega
    · intro t ht e
      rcases hsub t ht with hmem | hnew
      · have hc := h.pend_kind p hp t hmem e
        have := (h'.armed_busy t ht hc).1
        rw [hbusy] at this
        cases this
      · omega
  · exact fun seq hb => writeDone_idle w h hb seq
  · intro hl hidle hbetween
    apply writeDone_idle _ (hreach _)
    rw [run_cons, run_cons]
    apply run_busy_false between _ hbetween
    unfold isConnected at hl
    have hex : ∃ ble, w._ble = some ble := by
      cases hble : w._ble with
      | none => simp [hble] at hl
      | some ble => exact ⟨ble, rfl⟩
    obtain ⟨ble, hble⟩ := hex
    have hconn : ble.connected = true := by simpa [hble] using hl
    have e : step w (.send command message) = _ :=
      congrArg (settle w) (send_accepted w command message ble hble hconn hidle)
    have h1 : Inv (step w (.send command message)) := inv_step w _ h
    have hm : (⟨w.nextTimerID, .clearBusy, 5000⟩ : Timer) ∈
        (step w (.send command message)).timers := by
      rw [e]
      simp [settle]
    exact expire_busy_timer _ h1 ⟨w.nextTimerID, .clearBusy, 5000⟩ hm rfl

/-- C6, witness: a send whose timeout fires first, an inbound frame and a reset
in between, then the late completion of the write. -/
theorem completion_second_witness :
    isConnected (run constructor [.scan, .connectCallback]) = true ∧
    (run constructor [.scan, .connectCallback])._busy = false ∧
    (∀ e ∈ [Event.message "AA==", Event.reset], e.isSend = false) ∧
    (step (run (run constructor [.scan, .connectCallback])
        (.send 0x81 [1] :: .timerExpired (run constructor [.scan, .connectCallback]).nextTimerID
          :: [.message "AA==", .reset]))
        (.writeDone (run constructor [.scan, .connectCallback]).writes.length) =
      { run (run constructor [.scan, .connectCallback])
          (.send 0x81 [1] :: .timerExpired (run constructor [.scan, .connectCallback]).nextTimerID
            :: [.message "AA==", .reset]) with
        pending := (run (run constructor [.scan, .connectCallback])
          (.send 0x81 [1] :: .timerExpired (run constructor [.scan, .connectCallback]).nextTimerID
            :: [.message "AA==", .reset])).pending.filter
          fun p => p.seq != (run constructor [.scan, .connectCallback]).writes.length }) :=
  ⟨by decide, by decide, by decide,
    (completion_second [.scan, .connectCallback] [] [.message "AA==", .reset] 0x81 [1]).2.2
      (by decide) (by decide) (by decide)⟩

/-! ## Stall detection -/

theorem reset_timeoutID_timers (w : World) :
    ∀ t ∈ (reset w).timers, (reset w)._timeoutID = some t.id ∨
      (t ∈ w.timers ∧ w._timeoutID ≠ some t.id ∧ (reset w)._timeoutID = none) ∨
      (t ∈ w.timers ∧ (reset w)._timeoutID = w._timeoutID) := by
  intro t ht
  unfold reset at ht ⊢
  split
  · rename_i htr
    rw [if_pos htr] at ht
    right
    left
    cases hid : w._timeoutID with
    | none => simp [truthy, hid] at htr
    | some x =>
      have ht' : t ∈ (clearTimeout w (some x)).timers := by
        rw [hid] at ht
        exact ht
      have := mem_filter_id ht'
      exact ⟨this.1, by simpa using fun e => this.2 e.symm, rfl⟩
  · rename_i htr
    rw [if_neg htr] at ht
    exact Or.inr (Or.inr ⟨ht, rfl⟩)

theorem stallRecorded_reset (w : World) (hs : StallRecorded w) : StallRecorded (reset w) := by
  intro t ht hc
  rcases reset_timeoutID_timers w t ht with h | ⟨hm, hne, _⟩ | ⟨hm, he⟩
  · exact h
  · exact absurd (hs t hm hc) hne
  · rw [he]
    exact hs t hm hc

theorem reset_disconnectErrors (w : World) : (reset w).disconnectErrors = w.disconnectErrors := by
  unfold reset
  split
  · exact clearTimeout_disconnectErrors w w._timeoutID
  · rfl

theorem writeResolved_timeoutID (w : World) : (writeResolved w)._timeoutID = w._timeoutID := by
  unfold writeResolved
  exact clearTimeout_timeoutID _ _

theorem writeResolved_disconnectErrors (w : World) :
    (writeResolved w).disconnectErrors = w.disconnectErrors := by
  unfold writeResolved
  exact clearTimeout_disconnectErrors _ _

/-- A step keeps every armed stall timer recorded, provided a connect callback
arrives only while no stall timer is armed. -/
theorem stallRecorded_step (w : World) (e : Event) (hs : StallRecorded w)
    (hc : e.isConnect = true → armedTimers w .dataStopped = []) :
    StallRecorded (step w e) := by
  cases e with
  | scan =>
    simp only [step, scan]
    split <;> exact hs
  | connectCallback =>
    have hnone := hc rfl
    simp only [step]
    split
    · exact hs
    · intro t ht hk
      rcases mem_snoc ht with ht | rfl
      · have : t ∈ armedTimers w .dataStopped := by
          unfold armedTimers
          exact List.mem_filter.2 ⟨ht, by simpa using hk⟩
        rw [hnone] at this
        cases this
      · rfl
  | message base64 =>
    show StallRecorded (settle w (_onMessage w base64))
    cases hd : base64ToUint8Array base64 with
    | error e =>
      rw [onMessage_error w base64 e hd]
      exact hs
    | ok data =>
      rw [onMessage_ok w base64 data hd]
      intro t ht hk
      rcases mem_snoc ht with ht | rfl
      · have hm := mem_clearTimeout w _ t ht
        have hrec := hs t hm hk
        rw [hrec] at ht
        exact absurd rfl (mem_filter_id ht).2
      · rfl
  | send command message =>
    show StallRecorded (settle w (send w command message))
    rcases send_cases w command message with h | ⟨ble, _, _, _, h⟩
    · rw [h]
      exact hs
    · rw [h]
      intro t ht hk
      rcases mem_snoc ht with ht | rfl
      · exact hs t ht hk
      · cases hk
  | writeDone seq =>
    simp only [step]
    split
    · intro t ht hk
      rw [writeResolved_timeoutID]
      have h' := writeResolved_timers_sub _ t ht
      exact hs t h' hk
    · exact hs
  | timerExpired id =>
    simp only [step]
    split
    · exact hs
    · rename_i u _
      cases hcb : u.callback
      · exact fun t ht hk => hs t (mem_filter_id ht).1 hk
      · simp only [runCallback]
        split
        · exact fun t ht hk => hs t (mem_filter_id ht).1 hk
        · exact fun t ht hk => hs t (mem_filter_id ht).1 hk
  | reset => exact stallRecorded_reset w hs
  | disconnect =>
    simp only [step, disconnect]
    split
    · exact stallRecorded_reset _ hs
    · exact stallRecorded_reset _ hs
  | linkLost =>
    simp only [step]
    split <;> exact hs

theorem stallRecorded_run (events : List Event) :
    ∀ w : World, StallRecorded w → connectsDisarmed w events = true →
      StallRecorded (run w events) := by
  induction events with
  | nil => exact fun w hs _ => hs
  | cons e events ih =>
    intro w hs hc
    simp only [connectsDisarmed, Bool.and_eq_true, Bool.or_eq_true, Bool.not_eq_true',
      List.isEmpty_iff] at hc
    rw [run_cons]
    apply ih _ _ hc.2
    apply stallRecorded_step w e hs
    intro hcon
    rcases hc.1 with h | h
    · rw [hcon] at h
      cases h
    · exact h

/-- At most one stall timer is armed when every armed stall timer is the recorded one. -/
theorem armed_stall_le_one (w : World) (h : Inv w) (hs : StallRecorded w) :
    (armedTimers w .dataStopped).length ≤ 1 := by
  have hn : ((armedTimers w .dataStopped).map fun t => t.id).Nodup :=
    (h.tid_nodup).sublist ((List.filter_sublist w.timers).map _)
  have hall : ∀ x ∈ (armedTimers w .dataStopped).map (fun t => t.id),
      w._timeoutID = some x := by
    intro x hx
    rcases List.mem_map.1 hx with ⟨t, ht, rfl⟩
    rcases List.mem_filter.1 ht with ⟨h1, h2⟩
    exact hs t h1 (by simpa using h2)
  have := length_le_one_of_nodup_const _ _ hn hall
  rwa [List.length_map] at this

/-- What a step does to the calls of the stall-error hook: nothing, or one more
call by an expiring stall timer, which is disarmed. -/
theorem step_errors (w : World) (e : Event) :
    (step w e).disconnectErrors = w.disconnectErrors ∨
    ∃ t ∈ w.timers, t.callback = .dataStopped ∧
      (step w e).disconnectErrors = w.disconnectErrors ++ [BLEDataStoppedError] ∧
      ∀ u ∈ (step w e).timers, u.id ≠ t.id := by
  cases e with
  | scan =>
    left
    simp only [step, scan]
    split <;> rfl
  | connectCallback =>
    left
    simp only [step]
    split <;> rfl
  | message base64 =>
    left
    show (settle w (_onMessage w base64)).disconnectErrors = _
    cases hd : base64ToUint8Array base64 with
    | error e => rw [onMessage_error w base64 e hd]
    | ok data =>
      rw [onMessage_ok w base64 data hd]
      rfl
  | send command message =>
    left
    show (settle w (send w command message)).disconnectErrors = _
    rcases send_cases w command message with h | ⟨ble, _, _, _, h⟩
    · rw [h]
    · rw [h]
      rfl
  | writeDone seq =>
    left
    simp only [step]
    split
    · rw [writeResolved_disconnectErrors]
    · rfl
  | timerExpired id =>
    simp only [step]
    split
    · exact Or.inl rfl
    · rename_i t hf
      obtain ⟨ht, hid⟩ := find_timer hf
      cases hcb : t.callback
      · exact Or.inl rfl
      · simp only [runCallback]
        split
        · right
          refine ⟨t, ht, hcb, rfl, fun u hu => ?_⟩
          rw [hid]
          exact (mem_filter_id hu).2
        · exact Or.inl rfl
  | reset => exact Or.inl (reset_disconnectErrors w)
  | disconnect =>
    left
    simp only [step, disconnect]
    split
    · rw [reset_disconnectErrors]
    · rw [reset_disconnectErrors]
  | linkLost =>
    left
    simp only [step]
    split <;> rfl

/-- Without a connect callback or an inbound frame no step arms a stall timer. -/
theorem step_stall_sub (w : World) (e : Event) (he : e.armsStall = false) :
    ∀ t ∈ (step w e).timers, t.callback = .dataStopped → t ∈ w.timers := by
  intro t ht hk
  rcases (step_timers w e).2 t ht with h | h
  · exact h
  · cases e with
    | connectCallback => cases he
    | message base64 => cases he
    | send command message =>
      have ht' : t ∈ (settle w (send w command message)).timers := ht
      rcases send_cases w command message with hh | ⟨ble, _, _, _, hh⟩
      · rw [hh] at ht'
        exact ht'
      · rw [hh] at ht'
        rcases mem_snoc ht' with h1 | rfl
        · exact h1
        · cases hk
    | scan =>
      simp only [step, scan] at ht
      split at ht <;> exact ht
    | writeDone seq =>
      simp only [step] at ht
      split at ht
      · have h' := writeResolved_timers_sub _ t ht
        exact h'
      · exact ht
    | timerExpired id =>
      simp only [step] at ht
      split at ht
      · exact ht
      · rename_i u _
        cases hcb : u.callback
        · rw [hcb] at ht
          exact (mem_filter_id ht).1
        · rw [hcb] at ht
          simp only [runCallback] at ht
          split at ht
          · exact (mem_filter_id ht).1
          · exact (mem_filter_id ht).1
    | reset => exact reset_timers_sub w t ht
    | disconnect =>
      simp only [step, disconnect] at ht
      split at ht
      · have h' := reset_timers_sub _ t ht
        exact h'
      · have h' := reset_timers_sub _ t ht
        exact h'
    | linkLost =>
      simp only [step] at ht
      split at ht <;> exact ht

theorem noFrameInv_step (x : Nat) (w : World) (e : Event) (he : e.armsStall = false)
    (h : NoFrameInv x w) : NoFrameInv x (step w e) := by
  have hsub := step_stall_sub w e he
  rcases step_errors w e with herr | ⟨t, ht, hk, herr, hgone⟩
  · rcases h with ⟨h1, h2⟩ | ⟨h1, h2⟩
    · exact Or.inl ⟨by rw [herr, h1], fun u hu huk => h2 u (hsub u hu huk) huk⟩
    · exact Or.inr ⟨by rw [herr, h1], fun u hu huk => h2 u (hsub u hu huk) huk⟩
  · rcases h with ⟨h1, h2⟩ | ⟨_, h2⟩
    · refine Or.inr ⟨by rw [herr, h1]; rfl, fun u hu huk => ?_⟩
      have e1 := h2 u (hsub u hu huk) huk
      have e2 := h2 t ht hk
      exact hgone u hu (by rw [e1, e2])
    · exact absurd hk (h2 t ht)

theorem noFrameInv_run (x : Nat) (events : List Event) :
    ∀ w : World, (∀ e ∈ events, e.armsStall = false) → NoFrameInv x w →
      NoFrameInv x (run w events) := by
  induction events with
  | nil => exact fun w _ h => h
  | cons e events ih =>
    intro w he h
    rw [run_cons]
    exact ih _ (fun a ha => he a (List.mem_cons_of_mem _ ha))
      (noFrameInv_step x w e (he e (List.mem_cons_self _ _)) h)

theorem fired_step (w : World) (e : Event) (he : e.armsStall = false)
    (h : w.disconnectErrors = [BLEDataStoppedError] ∧
      ∀ t ∈ w.timers, t.callback ≠ .dataStopped) :
    (step w e).disconnectErrors = [BLEDataStoppedError] ∧
      ∀ t ∈ (step w e).timers, t.callback ≠ .dataStopped := by
  have hsub := step_stall_sub w e he
  refine ⟨?_, fun u hu huk => h.2 u (hsub u hu huk) huk⟩
  rcases step_errors w e with herr | ⟨t, ht, hk, _, _⟩
  · rw [herr, h.1]
  · exact absurd hk (h.2 t ht)

theorem fired_run (events : List Event) :
    ∀ w : World, (∀ e ∈ events, e.armsStall = false) →
      (w.disconnectErrors = [BLEDataStoppedError] ∧
        ∀ t ∈ w.timers, t.callback ≠ .dataStopped) →
      (run w events).disconnectErrors = [BLEDataStoppedError] ∧
        ∀ t ∈ (run w events).timers, t.callback ≠ .dataStopped := by
  induction events with
  | nil => exact fun w _ h => h
  | cons e events ih =>
    intro w he h
    rw [run_cons]
    exact ih _ (fun a ha => he a (List.mem_cons_of_mem _ ha))
      (fired_step w e (he e (List.mem_cons_self _ _)) h)

theorem armedTimers_eq_nil (w : World) (cb : TimerCallback)
    (h : ∀ t ∈ w.timers, t.callback ≠ cb) : armedTimers w cb = [] := by
  unfold armedTimers
  rw [List.filter_eq_nil_iff]
  intro t ht
  simpa using h t ht

/-- C9: the session at the failing input `scan(); connect callback; connect
callback; _onMessage("AA==")`. The second connect callback arms stall timer 2
and records it without disarming timer 1, so two stall timers are armed; the
inbound frame then disarms only the recorded timer 2 and arms timer 3, and
timer 1, armed at the first connect, is still armed after the frame. -/
theorem second_connect_leaks_stall_timer :
    armedTimers (run constructor [.scan, .connectCallback, .connectCallback]) .dataStopped =
      [⟨1, .dataStopped, 2000⟩, ⟨2, .dataStopped, 2000⟩] ∧
    (run constructor [.scan, .connectCallback, .connectCallback])._timeoutID = some 2 ∧
    armedTimers (run constructor [.scan, .connectCallback, .connectCallback, .message "AA=="])
      .dataStopped = [⟨1, .dataStopped, 2000⟩, ⟨3, .dataStopped, 2000⟩] ∧
    isArmed (run constructor [.scan, .connectCallback, .connectCallback, .message "AA=="]) 1
      = true :=
  ⟨by decide, by decide, by decide, by decide⟩

/-- Stall detection when connect callbacks arrive disarmed: on a freshly
constructed session with a transport, the connect
callback arms exactly one stall timer of 2000 ms and records it; with no inbound
frame and no further connect callback the hook fires at most once, and once the
timer has expired the hook has fired exactly once and no stall timer is armed
again; if a frame is received before expiry, the timer armed at connect is
disarmed and never armed again, and exactly one fresh stall timer of 2000 ms is
armed; and as long as every connect callback arrives while no stall timer is
armed, at most one stall timer is armed in every reachable state. -/
theorem stall_detection (events later free : List Event) (base64 : String) (data : List Nat) :
    (armedTimers (run constructor [.scan, .connectCallback]) .dataStopped =
        [⟨1, .dataStopped, 2000⟩] ∧
      (run constructor [.scan, .connectCallback])._timeoutID = some 1 ∧
      (run constructor [.scan, .connectCallback]).disconnectErrors = []) ∧
    ((∀ e ∈ later, e.armsStall = false) →
      (run (run constructor [.scan, .connectCallback]) later).disconnectErrors.length ≤ 1 ∧
      (run (run constructor [.scan, .connectCallback])
        (.timerExpired 1 :: later)).disconnectErrors = [BLEDataStoppedError] ∧
      armedTimers (run (run constructor [.scan, .connectCallback])
        (.timerExpired 1 :: later)) .dataStopped = []) ∧
    (base64ToUint8Array base64 = .ok data →
      armedTimers (step (run constructor [.scan, .connectCallback]) (.message base64))
        .dataStopped = [⟨2, .dataStopped, 2000⟩] ∧
      isArmed (run (step (run constructor [.scan, .connectCallback]) (.message base64)) free) 1
        = false) ∧
    (connectsDisarmed constructor events = true →
      (armedTimers (run constructor events) .dataStopped).length ≤ 1) := by
  refine ⟨⟨by decide, by decide, by decide⟩, ?_, ?_, ?_⟩
  · intro hl
    have h0 : NoFrameInv 1 (run constructor [.scan, .connectCallback]) :=
      Or.inl ⟨by decide, by decide⟩
    have h1 := noFrameInv_run 1 later _ hl h0
    have h2 : (step (run constructor [.scan, .connectCallback])
          (.timerExpired 1)).disconnectErrors = [BLEDataStoppedError] ∧
        ∀ t ∈ (step (run constructor [.scan, .connectCallback]) (.timerExpired 1)).timers,
          t.callback ≠ .dataStopped := ⟨by decide, by decide⟩
    have h3 := fired_run later _ hl h2
    refine ⟨?_, ?_, ?_⟩
    · rcases h1 with ⟨e, _⟩ | ⟨e, _⟩
      · rw [e]
        exact Nat.zero_le _
      · rw [e]
        exact Nat.le_refl _
    · rw [run_cons]
      exact h3.1
    · rw [run_cons]
      exact armedTimers_eq_nil _ _ h3.2
  · intro hd
    have e : step (run constructor [.scan, .connectCallback]) (.message base64) = _ :=
      congrArg (settle _) (onMessage_ok (run constructor [.scan, .connectCallback]) base64 data hd)
    rw [e]
    refine ⟨rfl, ?_⟩
    apply never_armed_again 1 free
    · show 1 < 3
      decide
    · show ∀ t ∈ [(⟨2, .dataStopped, 2000⟩ : Timer)], t.id ≠ 1
      decide
  · intro hc
    have hs : StallRecorded constructor := by
      intro t ht
      cases ht
    exact armed_stall_le_one _ (inv_reachable events)
      (stallRecorded_run events constructor hs hc)

/-- An instance of stall detection: a connect, a frame, a reset and a reconnect;
a continuation with a send, the expiry and a reset but no frame; the one-byte
frame "AA==". -/
theorem stall_detection_witness :
    (∀ e ∈ [Event.send 0x81 [1], Event.timerExpired 1, Event.reset], e.armsStall = false) ∧
    base64ToUint8Array "AA==" = .ok [0] ∧
    connectsDisarmed constructor
      [.scan, .connectCallback, .message "AA==", .reset, .connectCallback] = true ∧
    ((run (run constructor [.scan, .connectCallback])
        [.send 0x81 [1], .timerExpired 1, .reset]).disconnectErrors.length ≤ 1 ∧
      (run (run constructor [.scan, .connectCallback])
        (.timerExpired 1 :: [.send 0x81 [1], .timerExpired 1, .reset])).disconnectErrors
          = [BLEDataStoppedError] ∧
      armedTimers (run (run constructor [.scan, .connectCallback])
        (.timerExpired 1 :: [.send 0x81 [1], .timerExpired 1, .reset])) .dataStopped = []) ∧
    (armedTimers (step (run constructor [.scan, .connectCallback]) (.message "AA=="))
        .dataStopped = [⟨2, .dataStopped, 2000⟩] ∧
      isArmed (run (step (run constructor [.scan, .connectCallback]) (.message "AA=="))
        [.connectCallback, .timerExpired 1]) 1 = false) ∧
    (armedTimers (run constructor
      [.scan, .connectCallback, .message "AA==", .reset, .connectCallback])
        .dataStopped).length ≤ 1 :=
  ⟨by decide, rfl, by decide,
    (stall_detection [.scan, .connectCallback, .message "AA==", .reset, .connectCallback]
      [.send 0x81 [1], .timerExpired 1, .reset] [.connectCallback, .timerExpired 1]
      "AA==" [0]).2.1 (by decide),
    (stall_detection [.scan, .connectCallback, .message "AA==", .reset, .connectCallback]
      [.send 0x81 [1], .timerExpired 1, .reset] [.connectCallback, .timerExpired 1]
      "AA==" [0]).2.2.1 rfl,
    (stall_detection [.scan, .connectCallback, .message "AA==", .reset, .connectCallback]
      [.send 0x81 [1], .timerExpired 1, .reset] [.connectCallback, .timerExpired 1]
      "AA==" [0]).2.2.2 (by decide)⟩

/-! ## Nesting of sub-scripts -/

/-- The text `_funcPrefix` returns when a valid suffix script is given. -/
theorem funcPrefix_suffix_eq (funcCode : Nat) (data : List Nat) (s : String)
    (suffix : List Nat) (hf : funcCode < 256) (hd : ∀ b ∈ data, b < 256)
    (hs : base64ToUint8Array s = .ok suffix) :
    _funcPrefix funcCode data (some s) = .ok (uint8ArrayToBase64 (funcCode :: (data ++ suffix))) ∧
    base64ToUint8Array (uint8ArrayToBase64 (funcCode :: (data ++ suffix))) =
      .ok (funcCode :: (data ++ suffix)) := by
  have hsb := base64ToUint8Array_bytes s suffix hs
  constructor
  · simp only [_funcPrefix, hs]
    rw [suffixOutput_eq funcCode data suffix hf hd hsb]
  · apply base64ToUint8Array_uint8ArrayToBase64
    intro b hm
    rcases List.mem_cons.1 hm with h | h
    · omega
    · rcases List.mem_append.1 h with h | h
      · exact hd b h
      · exact hsb b h

/-- The one-byte buffer `loop` and `wait` fill with their count. -/
theorem countBuffer_eq (n : Nat) (hn : n < 256) : u8store (newUint8Array 1) 0 n = [n] := by
  show [n % 256] = [n]
  rw [Nat.mod_eq_of_lt hn]

/-- C11: for every count `n` in 0..255 and every valid base64 sub-script `s`,
`loop(n, s)` returns text that decodes to exactly `[0xC2, n]` followed by the
bytes of `s`, and for every `sec` in 0..255 `wait(sec, s)` returns text that
decodes to exactly `[0xC3, sec]` followed by the bytes of `s`: the sub-script
is the unmodified tail and the fixed data is one byte. -/
theorem loop_wait_nesting (n sec : Nat) (s : String) (suffix : List Nat)
    (hn : n < 256) (hsec : sec < 256) (hs : base64ToUint8Array s = .ok suffix) :
    (∃ text, loop n (some s) = .ok text ∧
      base64ToUint8Array text = .ok ([0xC2, n] ++ suffix) ∧
      ([0xC2, n] ++ suffix).length = 2 + suffix.length ∧
      ([0xC2, n] ++ suffix).drop 2 = suffix) ∧
    (∃ text, wait sec (some s) = .ok text ∧
      base64ToUint8Array text = .ok ([0xC3, sec] ++ suffix) ∧
      ([0xC3, sec] ++ suffix).length = 2 + suffix.length ∧
      ([0xC3, sec] ++ suffix).drop 2 = suffix) := by
  have hl := funcPrefix_suffix_eq FUNC_LOOP [n] s suffix (by decide)
    (by intro b hb; rw [List.mem_singleton.1 hb]; exact hn) hs
  have hw := funcPrefix_suffix_eq FUNC_WAIT [sec] s suffix (by decide)
    (by intro b hb; rw [List.mem_singleton.1 hb]; exact hsec) hs
  constructor
  · refine ⟨_, ?_, hl.2, ?_, rfl⟩
    · simp only [loop]
      rw [countBuffer_eq n hn]
      exact hl.1
    · simp
      omega
  · refine ⟨_, ?_, hw.2, ?_, rfl⟩
    · simp only [wait]
      rw [countBuffer_eq sec hsec]
      exact hw.1
    · simp
      omega

/-- C11, witness: loop 3 times and wait 5 seconds around the script "wUhp"
(display "Hi"). -/
theorem loop_wait_nesting_witness :
    base64ToUint8Array "wUhp" = .ok [0xC1, 0x48, 0x69] ∧
    (∃ text, loop 3 (some "wUhp") = .ok text ∧
      base64ToUint8Array text = .ok ([0xC2, 3] ++ [0xC1, 0x48, 0x69]) ∧
      ([0xC2, 3] ++ [0xC1, 0x48, 0x69]).length = 2 + [0xC1, 0x48, 0x69].length ∧
      ([0xC2, 3] ++ [0xC1, 0x48, 0x69]).drop 2 = [0xC1, 0x48, 0x69]) ∧
    (∃ text, wait 5 (some "wUhp") = .ok text ∧
      base64ToUint8Array text = .ok ([0xC3, 5] ++ [0xC1, 0x48, 0x69]) ∧
      ([0xC3, 5] ++ [0xC1, 0x48, 0x69]).length = 2 + [0xC1, 0x48, 0x69].length ∧
      ([0xC3, 5] ++ [0xC1, 0x48, 0x69]).drop 2 = [0xC1, 0x48, 0x69]) :=
  ⟨rfl, loop_wait_nesting 3 5 "wUhp" [0xC1, 0x48, 0x69] (by decide) (by decide) rfl⟩

/-! ## What an inbound frame leaves in the sample -/

theorem getElem?_onMessagePins (b : List Nat) (G : List (Option Nat)) (k : Nat) :
    (onMessagePins b G)[k]? =
      if b.length ≠ 0 ∧ k < b.length + 7 then some (some (closedSlot b k)) else G[k]? :=
  (outerLoop_spec b G b.length).2 k

theorem byte_and_256 (x : Nat) (h : x < 256) : x &&& (1 <<< 8) = 0 := by
  apply Nat.eq_of_testBit_eq
  intro i
  rw [Nat.testBit_and, Nat.one_shiftLeft, Nat.testBit_two_pow, Nat.zero_testBit]
  by_cases e : 8 = i
  · subst e
    rw [Nat.testBit_lt_two_pow (by omega)]
    rfl
  · simp [e]

theorem mask_eq_of_testBit (x y j : Nat) (h : x.testBit j = y.testBit j) :
    x &&& (1 <<< j) = y &&& (1 <<< j) := by
  apply Nat.eq_of_testBit_eq
  intro i
  rw [Nat.testBit_and, Nat.testBit_and, Nat.one_shiftLeft, Nat.testBit_two_pow]
  by_cases e : j = i
  · subst e
    rw [h]
  · simp [e]

theorem u8load_lt (b : List Nat) (hb : ∀ x ∈ b, x < 256) (k : Nat) : u8load b k < 256 := by
  unfold u8load
  rw [List.getD_eq_getElem?_getD]
  by_cases hk : k < b.length
  · rw [List.getElem?_eq_getElem hk]
    exact hb _ (List.getElem_mem hk)
  · have : b.length ≤ k := by omega
    rw [List.getElem?_eq_none this]
    decide

/-- The closed form of a slot below the frame length is 0: its mask is `1 << 8`. -/
theorem closedSlot_low (b : List Nat) (hb : ∀ x ∈ b, x < 256) (k : Nat) (hk : k < b.length) :
    closedSlot b k = 0 := by
  unfold closedSlot
  have e : min k (b.length - 1) = k := by omega
  rw [e, Nat.sub_self]
  exact byte_and_256 _ (u8load_lt b hb k)

/-- The closed form of the seven slots from the frame length on: the last byte
masked with `1 << 7` down to `1 << 1`. -/
theorem closedSlot_high (b : List Nat) (d : Nat) (hn : 1 ≤ b.length) :
    closedSlot b (b.length + d) = u8load b (b.length - 1) &&& (1 <<< (7 - d)) := by
  unfold closedSlot
  have e : min (b.length + d) (b.length - 1) = b.length - 1 := by omega
  have e2 : 8 - (b.length + d - (b.length - 1)) = 7 - d := by omega
  rw [e, e2]

/-- C12: for every inbound frame of `n >= 1` bytes, after `_onMessage` the
slots `0..n-1` are all 0 and the slots `n..n+6` hold the last byte masked with
`1 << 7`, `1 << 6`, ..., `1 << 1`; so two frames of equal length whose last
bytes agree on bits 1..7 leave identical samples on the same prior sample,
whatever their other bytes and whatever the lowest bit of any byte. -/
theorem onMessage_low_bit_blind (w : World) (base64 other : String) (b c : List Nat)
    (hdec : base64ToUint8Array base64 = .ok b) (hother : base64ToUint8Array other = .ok c)
    (hn : 1 ≤ b.length) (hlen : c.length = b.length)
    (hbits : ∀ j, 1 ≤ j → j ≤ 7 →
      (u8load b (b.length - 1)).testBit j = (u8load c (c.length - 1)).testBit j) :
    (∃ w', _onMessage w base64 = .ok w' ∧
      (∀ k, k < b.length → w'.GPIOPins[k]? = some (some 0)) ∧
      (∀ d, d < 7 → w'.GPIOPins[b.length + d]? =
        some (some (u8load b (b.length - 1) &&& (1 <<< (7 - d)))))) ∧
    (settle w (_onMessage w other)).GPIOPins = (settle w (_onMessage w base64)).GPIOPins := by
  have hb := base64ToUint8Array_bytes base64 b hdec
  have hc := base64ToUint8Array_bytes other c hother
  constructor
  · refine ⟨_, onMessage_ok w base64 b hdec, ?_, ?_⟩
    · intro k hk
      show (onMessagePins b w.GPIOPins)[k]? = _
      have cnd : b.length ≠ 0 ∧ k < b.length + 7 := by omega
      rw [getElem?_onMessagePins, if_pos cnd, closedSlot_low b hb k hk]
    · intro d hd
      show (onMessagePins b w.GPIOPins)[b.length + d]? = _
      have cnd : b.length ≠ 0 ∧ b.length + d < b.length + 7 := by omega
      rw [getElem?_onMessagePins, if_pos cnd, closedSlot_high b d hn]
  · rw [settle_onMessage_GPIOPins w other c hother, settle_onMessage_GPIOPins w base64 b hdec]
    apply List.ext_getElem?
    intro k
    rw [getElem?_onMessagePins, getElem?_onMessagePins, hlen]
    by_cases cnd : b.length ≠ 0 ∧ k < b.length + 7
    · rw [if_pos cnd, if_pos cnd]
      by_cases hk : k < b.length
      · rw [closedSlot_low b hb k hk, closedSlot_low c hc k (by omega)]
      · obtain ⟨d, rfl⟩ : ∃ d, k = b.length + d := ⟨k - b.length, by omega⟩
        have e := closedSlot_high c d (by omega)
        rw [hlen] at e
        rw [closedSlot_high b d hn, e]
        have hj := hbits (7 - d) (by omega) (by omega)
        rw [hlen] at hj
        rw [mask_eq_of_testBit _ _ _ hj]
    · rw [if_neg cnd, if_neg cnd]

/-- C12, witness: the frames "Af4=" (bytes 0x01, 0xFE) and "//8=" (bytes 0xFF,
0xFF) differ in the first byte and in the lowest bit of the last byte. -/
theorem onMessage_low_bit_blind_witness :
    base64ToUint8Array "Af4=" = .ok [0x01, 0xFE] ∧
    base64ToUint8Array "//8=" = .ok [0xFF, 0xFF] ∧
    (∃ w', _onMessage constructor "Af4=" = .ok w' ∧
      (∀ k, k < [0x01, 0xFE].length → w'.GPIOPins[k]? = some (some 0)) ∧
      (∀ d, d < 7 → w'.GPIOPins[[0x01, 0xFE].length + d]? =
        some (some (u8load [0x01, 0xFE] ([0x01, 0xFE].length - 1) &&& (1 <<< (7 - d)))))) ∧
    (settle constructor (_onMessage constructor "//8=")).GPIOPins =
      (settle constructor (_onMessage constructor "Af4=")).GPIOPins :=
  ⟨rfl, rfl,
    onMessage_low_bit_blind constructor "Af4=" "//8=" [0x01, 0xFE] [0xFF, 0xFF] rfl rfl
      (by decide) (by decide) (by
        intro j h1 h2
        interval_cases j <;> decide)⟩

end Esp32
